import Mathlib

/-!
# Verification of the Homebase automation scripts

Shallow embedding of the two scripts
`execution/send_onboarding_email_gmail.py` and
`execution/source_executive_coach_leads.py`, together with proofs about the
claims of the specification.

Python strings are modelled as `List Char` (`Str`); Python `bytes` as
`List Nat`.  `datetime` values are modelled as integer numbers of seconds
(UTC).  I/O is abstracted: the send log is an optional list of parsed CSV
rows, search and page fetches are stub functions passed to the pipeline,
and a fallible operation returns `Option`/`Except`.
-/

/-- A Python string, modelled as a list of characters. -/
abbrev Str := List Char

/-- Converts a Lean string literal into the `Str` model. -/
def str (s : String) : Str := s.toList

/-- Python `str.lower()` for the ASCII range (the repository only compares
ASCII keyword lists). -/
def pyLower (s : Str) : Str := s.map Char.toLower

/-- The whitespace characters recognised by Python's `str.split()`,
`str.strip()` and the `\s` regex class, restricted to ASCII. -/
def isPySpace (c : Char) : Bool :=
  c = ' ' || c = '\t' || c = '\n' || c = '\x0d' || c = '\x0b' || c = '\x0c'

/-- Boolean test that `n` starts the list `h` (Python `str.startswith`). -/
def startsB (n h : Str) : Bool :=
  match n, h with
  | [], _ => true
  | _ :: _, [] => false
  | a :: n', b :: h' => a = b && startsB n' h'

/-- Python `str.find`: the least index of `h` (counting from `i`) at which
`n` occurs, or `none`. -/
def pyFindAux (n : Str) : Str → Nat → Option Nat
  | h, i =>
    if startsB n h then some i
    else
      match h with
      | [] => none
      | _ :: t => pyFindAux n t (i + 1)

/-- Python `str.find` returning `none` instead of `-1`. -/
def pyFind (h n : Str) : Option Nat := pyFindAux n h 0

/-- Python's `in` operator on strings (substring test). -/
def containsB (h n : Str) : Bool := (pyFind h n).isSome

/-- One right-fold step of `pySplit`: the accumulator is the list of words
already found to the right plus the word fragment currently being built. -/
def pySplitStep (c : Char) (acc : List Str × Str) : List Str × Str :=
  if isPySpace c then
    (if acc.2 = [] then acc.1 else acc.2 :: acc.1, [])
  else (acc.1, c :: acc.2)

/-- Right fold computing the words of a string. -/
def pySplitAux (s : Str) : List Str × Str := s.foldr pySplitStep ([], [])

/-- Python `str.split()` with no argument: split on runs of whitespace,
discarding empty pieces. -/
def pySplit (s : Str) : List Str :=
  if (pySplitAux s).2 = [] then (pySplitAux s).1
  else (pySplitAux s).2 :: (pySplitAux s).1

/-- `" ".join(parts)`. -/
def joinSpace (parts : List Str) : Str := List.intercalate [' '] parts

/-- `" ".join(s.split())`: whitespace normalisation as used throughout the
lead-sourcing script. -/
def collapse (s : Str) : Str := joinSpace (pySplit s)

/-- Python `str.strip()` (whitespace on both ends). -/
def pyStrip (s : Str) : Str :=
  ((s.dropWhile isPySpace).reverse.dropWhile isPySpace).reverse

/-! ## The duplicate-send guard (`send_onboarding_email_gmail.py`)

`should_skip_send` reads the send log back with `csv.DictReader`; a row is
modelled with the fields the function consults.  `row.get` returns `None`
for a missing column, hence the `Option Str` fields.  The
`timestamp_utc` column is modelled as the result of
`datetime.fromisoformat` on it: `none` when parsing raises `ValueError`
(a malformed timestamp), otherwise the UTC time in seconds (naive
timestamps are already interpreted as UTC by the code's
`replace(tzinfo=timezone.utc)`). -/

structure SendRow where
  timestamp_utc : Option Int
  recipient : Option Str
  subject : Option Str
  sender : Option Str
  template_version : Option Str
deriving DecidableEq, Repr

/-- `should_skip_send(log_path, recipient, subject, sender,
template_version, window_hours)` from `send_onboarding_email_gmail.py`
lines 91-124.  The log file is `none` when `os.path.exists(log_path)` is
false; `now` is `datetime.now(timezone.utc)` in seconds and
`cutoff = now - timedelta(hours=window_hours)`. -/
def should_skip_send (log : Option (List SendRow))
    (recipient subject sender template_version : Str)
    (now window_hours : Int) : Bool :=
  match log with
  | none => false
  | some rows =>
    let cutoff := now - window_hours * 3600
    rows.any fun row =>
      match row.timestamp_utc with
      | none => false
      | some sent_at =>
        if sent_at < cutoff then false
        else
          row.recipient = some recipient && row.subject = some subject &&
            row.sender = some sender && row.template_version = some template_version

/-! ## Keyword heuristics (`source_executive_coach_leads.py`) -/

/-- `EXCLUDE_KEYWORDS` (lines 79-89). -/
def EXCLUDE_KEYWORDS : List Str :=
  [str "software", str "engineering", str "technical", str "developer",
   str "devops", str "product manager", str "cto", str "cio", str "it"]

/-- `SPECIALTY_KEYWORDS` (lines 91-105). -/
def SPECIALTY_KEYWORDS : List Str :=
  [str "leadership", str "c-suite", str "ceo", str "founder", str "team",
   str "organizational", str "career", str "communication", str "strategy",
   str "performance", str "women leaders", str "executive presence",
   str "succession"]

/-- `EAST_COAST_STATES` (lines 38-56): full region name paired with the
two-letter code. -/
def EAST_COAST_STATES : List (Str × Str) :=
  [(str "Maine", str "ME"), (str "New Hampshire", str "NH"),
   (str "Vermont", str "VT"), (str "Massachusetts", str "MA"),
   (str "Rhode Island", str "RI"), (str "Connecticut", str "CT"),
   (str "New York", str "NY"), (str "New Jersey", str "NJ"),
   (str "Pennsylvania", str "PA"), (str "Delaware", str "DE"),
   (str "Maryland", str "MD"), (str "District of Columbia", str "DC"),
   (str "Virginia", str "VA"), (str "North Carolina", str "NC"),
   (str "South Carolina", str "SC"), (str "Georgia", str "GA"),
   (str "Florida", str "FL")]

/-- `SEARCH_SEEDS` (lines 58-62). -/
def SEARCH_SEEDS : List Str :=
  [str "executive coach", str "leadership coach", str "executive coaching"]

/-- `EAST_COAST_CITIES` (lines 64-77). -/
def EAST_COAST_CITIES : List Str :=
  [str "New York, NY", str "Boston, MA", str "Philadelphia, PA",
   str "Washington, DC", str "Baltimore, MD", str "Richmond, VA",
   str "Raleigh, NC", str "Charlotte, NC", str "Atlanta, GA",
   str "Miami, FL", str "Orlando, FL", str "Tampa, FL"]

/-- `contains_excluded_keywords` (lines 252-254). -/
def contains_excluded_keywords (text : Str) : Bool :=
  EXCLUDE_KEYWORDS.any fun keyword => containsB (pyLower text) keyword

/-- `looks_like_executive_coach` (lines 257-259): the trigger-phrase test. -/
def looks_like_executive_coach (text : Str) : Bool :=
  containsB (pyLower text) (str "executive coach") ||
    containsB (pyLower text) (str "executive coaching") ||
    containsB (pyLower text) (str "leadership coach")

/-- The trigger phrases scanned by `extract_evidence` (line 293); they are
the same three phrases tested by `looks_like_executive_coach`. -/
def EVIDENCE_PHRASES : List Str :=
  [str "executive coach", str "executive coaching", str "leadership coach"]

/-- The loop body of `extract_evidence` (lines 291-300): phrases are tried
in list order and the first one that occurs anywhere in the lowered text
wins, at its first index there. -/
def evidenceLoop (text lowered : Str) : List Str → Str
  | [] => []
  | phrase :: rest =>
    match pyFind lowered phrase with
    | some idx => collapse ((text.take (idx + 120)).drop (idx - 60))
    | none => evidenceLoop text lowered rest

/-- `extract_evidence` (lines 291-300).  `text.take (idx+120) |>.drop
(idx-60)` is Python `text[max(0, idx-60):min(len(text), idx+120)]`. -/
def extract_evidence (text : Str) : Str :=
  evidenceLoop text (pyLower text) EVIDENCE_PHRASES

/-- Modelled from the spec: "finds the first occurrence of any of a small
set of trigger phrases" read as the earliest occurrence in the text over
all three phrases (rather than the code's phrase-priority order), with the
same slice arithmetic as the code. -/
def extract_evidence_spec (text : Str) : Str :=
  match (EVIDENCE_PHRASES.filterMap fun p => pyFind (pyLower text) p).min? with
  | some idx => collapse ((text.take (idx + 120)).drop (idx - 60))
  | none => []

/-- `extract_specialty` (lines 280-288). -/
def extract_specialty (text : Str) : Str :=
  let found := SPECIALTY_KEYWORDS.filter fun keyword => containsB (pyLower text) keyword
  if found = [] then [] else List.intercalate (str ", ") (found.take 3)

/-- Text with a "leadership coach" occurrence strictly before an
"executive coach" occurrence, far enough apart that the two candidate
evidence windows differ. -/
def evidenceCounterT : Str :=
  str "leadership coach zzzzzzzzzzzzzzzzzzzzzzzzzzzzzzzzzzzzzzzzzzzzzzzzzzzzzzzzzzzzzzzzzzzzzz executive coach"

/-- A single row fully matching the proposed send but timestamped in the
future relative to `now`. -/
def futureRow : SendRow :=
  ⟨some 2000000, some (str "a@b.c"), some (str "Welcome"), some (str "me@x.y"),
    some (str "default-v1")⟩

/-- C1 (counterexample): the guard checks only `sent_at < cutoff`, never an
upper bound against `now`.  A log row timestamped in the future (outside
the claimed interval from `now - window` to `now`) still makes
`should_skip_send` return `true`, refuting the claimed if-and-only-if. -/
theorem should_skip_send_claim_counterexample :
    should_skip_send (some [futureRow]) (str "a@b.c") (str "Welcome")
        (str "me@x.y") (str "default-v1") 1000000 1 = true
      ∧ futureRow.timestamp_utc = some 2000000 ∧ ¬ ((2000000 : Int) ≤ 1000000) := by
  refine ⟨by decide, rfl, by decide⟩

/-- C1 (amended): `should_skip_send` returns `true` iff the log file exists
and some row matches recipient, subject, sender and template version
exactly and its (well-formed) timestamp is at least `now - window`; rows
with malformed timestamps are skipped, and a missing log yields `false`.
No upper bound against `now` is enforced. -/
theorem should_skip_send_amended (log : Option (List SendRow))
    (r s sd tv : Str) (now wh : Int) :
    should_skip_send log r s sd tv now wh = true ↔
      ∃ rows, log = some rows ∧ ∃ row ∈ rows, ∃ t,
        row.timestamp_utc = some t ∧ now - wh * 3600 ≤ t ∧
        row.recipient = some r ∧ row.subject = some s ∧
        row.sender = some sd ∧ row.template_version = some tv := by
  cases log with
  | none => simp [should_skip_send]
  | some rows =>
    simp only [should_skip_send, List.any_eq_true, Option.some.injEq,
      exists_eq_left']
    constructor
    · rintro ⟨row, hmem, hrow⟩
      refine ⟨row, hmem, ?_⟩
      cases hts : row.timestamp_utc with
      | none => rw [hts] at hrow; cases hrow
      | some t0 =>
        simp only [hts] at hrow
        by_cases hc : t0 < now - wh * 3600
        · rw [if_pos hc] at hrow; cases hrow
        · rw [if_neg hc] at hrow
          simp only [Bool.and_eq_true, decide_eq_true_eq] at hrow
          exact ⟨t0, rfl, by omega, hrow.1.1.1, hrow.1.1.2, hrow.1.2, hrow.2⟩
    · rintro ⟨row, hmem, t0, hts, hle, h1, h2, h3, h4⟩
      refine ⟨row, hmem, ?_⟩
      simp only [hts]
      rw [if_neg (by omega)]
      simp [h1, h2, h3, h4]

/-! ## Location extraction (`extract_location`, lines 269-277)

The pattern is built from the raw string
`rf"\\b([A-Z][a-z]+(?:\\s+[A-Z][a-z]+)?),\\s*{state_abbr}\\b"`.
Because the raw string contains doubled backslashes, each `\\` is a regex
escape for one literal backslash character, and the following letter is
literal: the compiled regex demands a literal `\` + `b` before the city,
a literal `\` + one-or-more `s` between the words and before the
abbreviation, and a literal `\` + `b` after it.  Ordinary text such as
"Boston, MA" can never match.  The matcher below implements exactly that
compiled pattern (with the leftmost-match and greedy-optional semantics of
`re.search`). -/

/-- ASCII `[A-Z]`. -/
def isUpperAZ (c : Char) : Bool := 'A' ≤ c && c ≤ 'Z'

/-- ASCII `[a-z]`. -/
def isLowerAZ (c : Char) : Bool := 'a' ≤ c && c ≤ 'z'

/-- The backslash character (written via its code to keep literals clean). -/
def bsl : Char := Char.ofNat 92

/-- Parse `[A-Z][a-z]+` at the head: returns the word and the rest. -/
def cityWord (s : Str) : Option (Str × Str) :=
  match s with
  | c :: s1 =>
    if isUpperAZ c then
      let lows := s1.takeWhile isLowerAZ
      if lows = [] then none else some (c :: lows, s1.drop lows.length)
    else none
  | [] => none

/-- Parse the optional group `(?:\\s+[A-Z][a-z]+)` — a literal backslash,
one or more literal `s`, then a second capitalised word. -/
def matchOptExt (s : Str) : Option (Str × Str) :=
  match s with
  | c :: s1 =>
    if c = bsl then
      let sRun := s1.takeWhile (fun x => x = 's')
      if sRun = [] then none
      else
        match cityWord (s1.drop sRun.length) with
        | some (w, rest) => some (bsl :: (sRun ++ w), rest)
        | none => none
    else none
  | [] => none

/-- Parse the suffix `,\\s*ABBR\\b` — a comma, a literal backslash, zero or
more literal `s`, the abbreviation, a literal backslash and `b`. -/
def matchCityTail (abbr : Str) (s : Str) : Bool :=
  match s with
  | a :: b :: s1 =>
    if a = ',' && b = bsl then
      let s2 := s1.dropWhile (fun x => x = 's')
      startsB (abbr ++ [bsl, 'b']) s2
    else false
  | _ => false

/-- Attempt the full (mis-escaped) city/state pattern at this position;
returns the captured group 1 on success.  The optional second word is
greedy, with fallback when the tail then fails. -/
def matchCityStateAt (abbr : Str) (s : Str) : Option Str :=
  match s with
  | a :: b :: s1 =>
    if a = bsl && b = 'b' then
      match cityWord s1 with
      | none => none
      | some (w1, rest1) =>
        match matchOptExt rest1 with
        | some (ext, rest2) =>
          if matchCityTail abbr rest2 then some (w1 ++ ext)
          else if matchCityTail abbr rest1 then some w1
          else none
        | none => if matchCityTail abbr rest1 then some w1 else none
    else none
  | _ => none

/-- `re.search` for the pattern: leftmost matching position wins. -/
def searchCityState (abbr : Str) (s : Str) : Option Str :=
  match matchCityStateAt abbr s with
  | some g => some g
  | none =>
    match s with
    | [] => none
    | _ :: t => searchCityState abbr t

/-- The per-state loop of `extract_location` (lines 270-276): for each
state, first the regex (returning `f"{group1}, {abbr}"`), then the bare
full-name test on the lowered text. -/
def locationLoop (text : Str) : List (Str × Str) → Str
  | [] => []
  | (state_name, state_abbr) :: rest =>
    match searchCityState state_abbr text with
    | some g => g ++ str ", " ++ state_abbr
    | none =>
      if containsB (pyLower text) (pyLower state_name) then state_name
      else locationLoop text rest

/-- `extract_location` (lines 269-277). -/
def extract_location (text : Str) : Str := locationLoop text EAST_COAST_STATES

/-! ## Redirect-link normalisation (`normalize_bing_link`, lines 209-226)

The chain `urlparse` / `parse_qs` / `base64.urlsafe_b64decode` /
`bytes.decode("utf-8", errors="replace")` is embedded below.  Bytes are
`List Nat`.  `b64decodeLegacy` models `binascii.a2b_base64` in its default
non-strict mode, following binascii.c's state machine (`quad_pos`,
`leftchar`, `pads`): characters outside the alphabet are ignored (and do
not reset the pending-pad count), `=` before the third position of a quad
is ignored, `=` at the third position counts one pad (two such pads end
the decode successfully, and a data character in between resumes the
quad), `=` at the fourth position ends the decode successfully, and input
ending inside a quad is an error.  Since the source calls the decoder on
`padded.encode("utf-8")`, a non-ASCII character in the payload turns into
high bytes that the byte-level table maps to "ignore", which one ignored
character models exactly. -/

/-- Value of a hexadecimal digit. -/
def hexVal (c : Char) : Option Nat :=
  let n := c.toNat
  if 48 ≤ n && n ≤ 57 then some (n - 48)
  else if 97 ≤ n && n ≤ 102 then some (n - 87)
  else if 65 ≤ n && n ≤ 70 then some (n - 55)
  else none

/-- The Unicode replacement character U+FFFD. -/
def repl : Char := Char.ofNat 0xFFFD

/-- UTF-8 continuation byte test. -/
def isCont (b : Nat) : Bool := 0x80 ≤ b && b ≤ 0xBF

/-- UTF-8 decoding with `errors="replace"`, following the maximal-subpart
recovery CPython uses (one U+FFFD per maximal invalid subpart).  C1-range
`&#...;`-style quirks of `html.unescape` do not apply here. -/
def utf8Dec : Nat → List Nat → Str
  | 0, _ => []
  | _, [] => []
  | fuel + 1, b :: rest =>
    if b < 0x80 then Char.ofNat b :: utf8Dec fuel rest
    else if 0xC2 ≤ b && b ≤ 0xDF then
      match rest with
      | b2 :: r2 =>
        if isCont b2 then
          Char.ofNat ((b - 0xC0) * 64 + (b2 - 0x80)) :: utf8Dec fuel r2
        else repl :: utf8Dec fuel (b2 :: r2)
      | [] => [repl]
    else if 0xE0 ≤ b && b ≤ 0xEF then
      match rest with
      | b2 :: r2 =>
        if (b = 0xE0 && 0xA0 ≤ b2 && b2 ≤ 0xBF) ||
            (b = 0xED && 0x80 ≤ b2 && b2 ≤ 0x9F) ||
            (b ≠ 0xE0 && b ≠ 0xED && isCont b2) then
          match r2 with
          | b3 :: r3 =>
            if isCont b3 then
              Char.ofNat ((b - 0xE0) * 4096 + (b2 - 0x80) * 64 + (b3 - 0x80)) ::
                utf8Dec fuel r3
            else repl :: utf8Dec fuel (b3 :: r3)
          | [] => [repl]
        else repl :: utf8Dec fuel (b2 :: r2)
      | [] => [repl]
    else if 0xF0 ≤ b && b ≤ 0xF4 then
      match rest with
      | b2 :: r2 =>
        if (b = 0xF0 && 0x90 ≤ b2 && b2 ≤ 0xBF) ||
            (b = 0xF4 && 0x80 ≤ b2 && b2 ≤ 0x8F) ||
            (b ≠ 0xF0 && b ≠ 0xF4 && isCont b2) then
          match r2 with
          | b3 :: r3 =>
            if isCont b3 then
              match r3 with
              | b4 :: r4 =>
                if isCont b4 then
                  Char.ofNat ((b - 0xF0) * 262144 + (b2 - 0x80) * 4096 +
                    (b3 - 0x80) * 64 + (b4 - 0x80)) :: utf8Dec fuel r4
                else repl :: utf8Dec fuel (b4 :: r4)
              | [] => [repl]
            else repl :: utf8Dec fuel (b3 :: r3)
          | [] => [repl]
        else repl :: utf8Dec fuel (b2 :: r2)
      | [] => [repl]
    else repl :: utf8Dec fuel rest

/-- UTF-8 decoding entry point: the fuel (one unit per byte consumed, and
every step consumes at least one byte) makes the recursion structural so
that proofs can evaluate it. -/
def utf8DecodeReplace (l : List Nat) : Str := utf8Dec (l.length + 1) l

/-- Percent-decoding core of `urllib.parse.unquote`: maximal runs of
`%XX` escapes are collected into a byte buffer and decoded together as
UTF-8 with replacement; an invalid escape leaves `%` literal. -/
def unquoteAuxF : Nat → Str → List Nat → Str
  | 0, _, acc => utf8DecodeReplace acc.reverse
  | _, [], acc => utf8DecodeReplace acc.reverse
  | fuel + 1, a :: rest, acc =>
    if a = '%' then
      match rest with
      | b :: c :: r2 =>
        match hexVal b, hexVal c with
        | some x, some y => unquoteAuxF fuel r2 ((x * 16 + y) :: acc)
        | _, _ =>
          utf8DecodeReplace acc.reverse ++ a :: unquoteAuxF fuel (b :: c :: r2) []
      | [b2] => utf8DecodeReplace acc.reverse ++ a :: unquoteAuxF fuel [b2] []
      | [] => utf8DecodeReplace acc.reverse ++ [a]
    else utf8DecodeReplace acc.reverse ++ a :: unquoteAuxF fuel rest []

/-- Percent-decoding entry point (fuel as above). -/
def unquoteAux (s : Str) (acc : List Nat) : Str := unquoteAuxF (s.length + 1) s acc

/-- `urllib.parse.unquote_plus`: `+` becomes a space, then percent
decoding. -/
def unquote_plus (s : Str) : Str :=
  unquoteAux (s.map fun c => if c = '+' then ' ' else c) []

/-- The `query` component of `urlparse`: the part of the URL after the
first `?` and before the fragment (everything from the first `#` on). -/
def urlQuery (url : Str) : Str :=
  let head := url.takeWhile fun c => c ≠ '#'
  match head.findIdx? (fun c => c = '?') with
  | some i => head.drop (i + 1)
  | none => []

/-- Split a string on a separator character (`str.split(sep)`). -/
def splitOnChar (sep : Char) : Str → List Str
  | [] => [[]]
  | c :: rest =>
    let r := splitOnChar sep rest
    if c = sep then [] :: r
    else
      match r with
      | w :: ws => (c :: w) :: ws
      | [] => [[c]]

/-- `parse_qs(query).get("u", [""])[0]`: the first `name=value` pair whose
unquoted name is `u` and whose raw value is non-empty (default
`keep_blank_values=False` drops blank values and pairs with no `=`). -/
def parse_qs_u (query : Str) : Option Str :=
  (splitOnChar '&' query).findSome? fun pair =>
    match pair.findIdx? (fun c => c = '=') with
    | none => none
    | some i =>
      let name := pair.take i
      let value := pair.drop (i + 1)
      if value = [] then none
      else if unquote_plus name = str "u" then some (unquote_plus value) else none

/-- Base64 value of an alphabet character. -/
def b64Val (c : Char) : Option Nat :=
  if 'A' ≤ c && c ≤ 'Z' then some (c.toNat - 'A'.toNat)
  else if 'a' ≤ c && c ≤ 'z' then some (c.toNat - 'a'.toNat + 26)
  else if '0' ≤ c && c ≤ '9' then some (c.toNat - '0'.toNat + 52)
  else if c = '+' then some 62
  else if c = '/' then some 63
  else none

/-- Main loop of `binascii.a2b_base64` (non-strict mode): the arguments
after the input are `quad_pos` (0-3), `leftchar` (bits carried into the
next output byte) and `pads` (pad characters seen at quad position 2),
with output bytes emitted eagerly as in binascii.c. -/
def b64Loop : Str → Nat → Nat → Nat → List Nat → Option (List Nat)
  | [], quadPos, _, _, out => if quadPos = 0 then some out else none
  | c :: rest, quadPos, left, pads, out =>
    if c = '=' then
      if 2 ≤ quadPos then
        if 4 ≤ quadPos + pads + 1 then some out
        else b64Loop rest quadPos left (pads + 1) out
      else b64Loop rest quadPos left pads out
    else
      match b64Val c with
      | none => b64Loop rest quadPos left pads out
      | some v =>
        match quadPos with
        | 0 => b64Loop rest 1 v 0 out
        | 1 => b64Loop rest 2 (v % 16) 0 (out ++ [left * 4 + v / 16])
        | 2 => b64Loop rest 3 (v % 4) 0 (out ++ [left * 16 + v / 4])
        | _ => b64Loop rest 0 0 0 (out ++ [left * 64 + v])

/-- `base64.b64decode` with `validate=False`. -/
def b64decodeLegacy (s : Str) : Option (List Nat) :=
  b64Loop s 0 0 0 []

/-- The `-`/`_` to `+`/`/` translation of `urlsafe_b64decode`. -/
def urlsafeTranslate (s : Str) : Str :=
  s.map fun c => if c = '-' then '+' else if c = '_' then '/' else c

/-- The `a1` prefix strip and `=` padding correction applied by
`normalize_bing_link` (lines 217-220) to the `u` parameter. -/
def bingEncodedPadded (link : Str) : Str :=
  let encoded := (parse_qs_u (urlQuery link)).getD []
  let encoded2 := if startsB (str "a1") encoded then encoded.drop 2 else encoded
  encoded2 ++ List.replicate ((4 - encoded2.length % 4) % 4) '='

/-- `normalize_bing_link` (lines 209-226). -/
def normalize_bing_link (link : Str) : Str :=
  if !(containsB link (str "bing.com/ck/a")) then link
  else
    let encoded := (parse_qs_u (urlQuery link)).getD []
    if encoded = [] then link
    else
      match b64decodeLegacy (urlsafeTranslate (bingEncodedPadded link)) with
      | none => link
      | some bytes =>
        let decoded := utf8DecodeReplace bytes
        if startsB (str "http") decoded then decoded else link

/-- The decode chain of `normalize_bing_link` in isolation: `some s` when
the link uses the redirect scheme and carries a non-empty `u` parameter
whose (prefix-stripped, padding-corrected) payload base64-decodes, `s`
being the UTF-8 text of the payload; `none` otherwise. -/
def bingPayload (link : Str) : Option Str :=
  if !(containsB link (str "bing.com/ck/a")) then none
  else
    let encoded := (parse_qs_u (urlQuery link)).getD []
    if encoded = [] then none
    else (b64decodeLegacy (urlsafeTranslate (bingEncodedPadded link))).map utf8DecodeReplace

/-- A redirect link whose payload decodes to the absolute (but non-http)
URL `ftp://files.example.com/a`. -/
def bingFtpLink : Str :=
  str "https://www.bing.com/ck/a?u=a1ZnRwOi8vZmlsZXMuZXhhbXBsZS5jb20vYQ&p=1"

/-- A redirect link whose payload decodes to `http://example.com/`; the
payload needs two `=` of padding correction. -/
def bingHttpLink : Str :=
  str "https://www.bing.com/ck/a?u=a1aHR0cDovL2V4YW1wbGUuY29tLw&p=2"

/-! ## A model of `html.parser.HTMLParser`

Both scraper classes subclass the standard library's `HTMLParser` (with the
default `convert_charrefs=True`) and feed it one complete string.  The
tokenizer below models that parser's `goahead` loop for this use pattern:

* text outside tags is emitted as `chunk false` data with character
  references converted (`unescapeSubset` models `html.unescape` for the
  common named references and numeric references);
* start tags are parsed tolerantly into a lower-cased name and an
  attribute list (last duplicate wins only at lookup time, as in
  `dict(attrs)`), `<.../>`  calls the default `handle_startendtag`, i.e.
  open followed by close;
* `script`/`style` start tags put the parser into CDATA mode: everything
  until the first matching `</script>`/`</style>` is raw data
  (`chunk true`), with no tag parsing and no charref conversion inside;
* comments, processing instructions and declarations are consumed without
  producing events (the classes override no handlers for them);
* constructs left unterminated at end of input stay buffered (`feed`
  without `close`), producing no events, including trailing text whose
  last 34 characters contain a `&` not followed by whitespace or `;`.

Simplifications relative to CPython, none of which the claims exercise:
the named-reference table is restricted to the common entities, C1
control numeric references are not remapped through windows-1252, `<![`
marked sections are consumed up to the first `>`, and the rare
"bogus start tag emitted as data" fallback of `parse_starttag` is not
modelled. -/

/-- ASCII letter. -/
def isAsciiAlpha (c : Char) : Bool :=
  let n := c.toNat
  (97 ≤ n && n ≤ 122) || (65 ≤ n && n ≤ 90)

/-- Characters ending a (tolerant) tag name: `[^\t\n\r\f />\x00]`
complement. -/
def isTagNameEnd (c : Char) : Bool :=
  c = '\t' || c = '\n' || c = '\x0d' || c = '\x0c' || c = ' ' || c = '/' ||
    c = '>' || c = '\x00'

/-- Characters ending an attribute name: `[^\s/=>]` complement. -/
def isAttrNameEnd (c : Char) : Bool :=
  isPySpace c || c = '/' || c = '=' || c = '>'

/-- The single-quote character. -/
def qch : Char := Char.ofNat 39

/-- ASCII decimal digit. -/
def isDigitC (c : Char) : Bool := '0' ≤ c && c ≤ '9'

/-- ASCII hexadecimal digit. -/
def isHexDigit (c : Char) : Bool := (hexVal c).isSome

/-- Decimal digits to a number. -/
def digitsToNat (ds : Str) : Nat :=
  ds.foldl (fun n c => n * 10 + (c.toNat - '0'.toNat)) 0

/-- Hexadecimal digits to a number. -/
def hexDigitsToNat (ds : Str) : Nat :=
  ds.foldl (fun n c => n * 16 + (hexVal c).getD 0) 0

/-- A numeric character reference value to a character (invalid scalar
values become U+FFFD). -/
def codepointChar (n : Nat) : Char :=
  if n < 0xD800 || (0xE000 ≤ n && n < 0x110000) then Char.ofNat n else repl

/-- Named character references recognised by the model (the text after a
`&`); returns the character and the number of characters consumed. -/
def namedRef (s : Str) : Option (Char × Nat) :=
  if startsB (str "amp;") s then some ('&', 4)
  else if startsB (str "amp") s then some ('&', 3)
  else if startsB (str "lt;") s then some ('<', 3)
  else if startsB (str "lt") s then some ('<', 2)
  else if startsB (str "gt;") s then some ('>', 3)
  else if startsB (str "gt") s then some ('>', 2)
  else if startsB (str "quot;") s then some ('"', 5)
  else if startsB (str "quot") s then some ('"', 4)
  else if startsB (str "apos;") s then some (qch, 5)
  else none

/-- Numeric character references `#123` / `#x1F` (the text after a `&`),
with an optional trailing `;`. -/
def charRef (s : Str) : Option (Char × Nat) :=
  match s with
  | c :: rest =>
    if c = '#' then
      match rest with
      | x :: rest2 =>
        if x = 'x' || x = 'X' then
          let ds := rest2.takeWhile isHexDigit
          if ds = [] then none
          else
            some (codepointChar (hexDigitsToNat ds),
              if startsB (str ";") (rest2.drop ds.length) then 2 + ds.length + 1
              else 2 + ds.length)
        else
          let ds := rest.takeWhile isDigitC
          if ds = [] then none
          else
            some (codepointChar (digitsToNat ds),
              if startsB (str ";") (rest.drop ds.length) then 1 + ds.length + 1
              else 1 + ds.length)
      | [] => none
    else none
  | [] => none

/-- Fueled core of the `html.unescape` model. -/
def unescapeF : Nat → Str → Str
  | 0, _ => []
  | _, [] => []
  | fuel + 1, c :: rest =>
    if c = '&' then
      match namedRef rest with
      | some (ch, k) => ch :: unescapeF fuel (rest.drop k)
      | none =>
        match charRef rest with
        | some (ch, k) => ch :: unescapeF fuel (rest.drop k)
        | none => c :: unescapeF fuel rest
    else c :: unescapeF fuel rest

/-- `html.unescape` restricted to the supported references (every step
consumes at least one character, so the fuel is never exhausted). -/
def unescapeSubset (s : Str) : Str := unescapeF (s.length + 1) s

/-- A parser event, as delivered to the `handle_*` callbacks.  `chunk`
carries whether the data was produced inside a raw-text (CDATA) region. -/
inductive HEvent where
  | tagOpen (tag : Str) (attrs : List (Str × Option Str))
  | tagClose (tag : Str)
  | chunk (cdata : Bool) (data : Str)
deriving DecidableEq, Repr

/-- Skip `(?:\s|/(?!>))*`: whitespace and slashes not directly before
`>`. -/
def skipSeps : Str → Str
  | [] => []
  | c :: r =>
    if isPySpace c then skipSeps r
    else if c = '/' then
      match r with
      | d :: _ => if d = '>' then c :: r else skipSeps r
      | [] => skipSeps r
    else c :: r

/-- Parse an attribute value: a quoted value must be closed (else the tag
is incomplete, `none`); a bare value is the maximal run without
whitespace or `>` and may be empty. -/
def parseAttrValue (s : Str) : Option (Str × Str) :=
  match s with
  | c :: r =>
    if c = qch then
      match r.findIdx? (fun x => x = qch) with
      | some i => some (r.take i, r.drop (i + 1))
      | none => none
    else if c = '"' then
      match r.findIdx? (fun x => x = '"') with
      | some i => some (r.take i, r.drop (i + 1))
      | none => none
    else some (s.takeWhile fun x => !(isPySpace x) && x ≠ '>',
        s.dropWhile fun x => !(isPySpace x) && x ≠ '>')
  | [] => some ([], [])

/-- Result of scanning the attribute region of a start tag. -/
inductive AttrsResult where
  | ok (attrs : List (Str × Option Str)) (selfClosing : Bool) (rest : Str)
  | incomplete

/-- The `attrfind_tolerant` loop of `parse_starttag`: names are
lower-cased, values unescaped when non-empty, `None` when there is no
`=`. -/
def parseAttrs : Nat → Str → List (Str × Option Str) → AttrsResult
  | 0, _, _ => .incomplete
  | fuel + 1, s, acc =>
    match skipSeps s with
    | [] => .incomplete
    | c :: r =>
      if c = '>' then .ok acc false r
      else if c = '/' then
        match r with
        | d :: r2 => if d = '>' then .ok acc true r2 else .incomplete
        | [] => .incomplete
      else
        let nmRest := r.takeWhile fun x => !(isAttrNameEnd x)
        let name := c :: nmRest
        let s2 := r.drop nmRest.length
        let s3 := s2.dropWhile isPySpace
        match s3 with
        | e :: _ =>
          if e = '=' then
            let s4 := (s3.dropWhile fun x => x = '=').dropWhile isPySpace
            match parseAttrValue s4 with
            | none => .incomplete
            | some (vraw, rest2) =>
              parseAttrs fuel rest2
                (acc ++ [(pyLower name, some (if vraw = [] then [] else unescapeSubset vraw))])
          else parseAttrs fuel s2 (acc ++ [(pyLower name, none)])
        | [] => parseAttrs fuel s2 (acc ++ [(pyLower name, none)])

/-- Result of `parse_starttag`. -/
inductive TagParse where
  | startTag (tag : Str) (attrs : List (Str × Option Str)) (selfClosing : Bool)
      (rest : Str)
  | incomplete

/-- `parse_starttag`: `s` is the text after `<`, whose head is a letter. -/
def parseStartTag (s : Str) : TagParse :=
  match s with
  | c :: r =>
    let nmRest := r.takeWhile fun x => !(isTagNameEnd x)
    match parseAttrs (r.length + 1) (r.drop nmRest.length) [] with
    | .incomplete => .incomplete
    | .ok attrs selfC rest => .startTag (pyLower (c :: nmRest)) attrs selfC rest
  | [] => .incomplete

/-- Name characters of the strict `endtagfind` pattern
(`[-.a-zA-Z0-9:_]`). -/
def isEndTagNameChar (c : Char) : Bool :=
  isAsciiAlpha c || isDigitC c || c = '-' || c = '.' || c = ':' || c = '_'

/-- Result of `parse_endtag`. -/
inductive EndTagParse where
  | close (tag : Str) (rest : Str)
  | closeStop (tag : Str)
  | skip (rest : Str)
  | incomplete

/-- Remainder after the first `>`, or `none`. -/
def findGt (s : Str) : Option Str :=
  match s.findIdx? (fun c => c = '>') with
  | some i => some (s.drop (i + 1))
  | none => none

/-- The tolerant fallback of `parse_endtag` (the text after `</`). -/
def parseEndTagTolerant (s : Str) : EndTagParse :=
  match s with
  | c :: r =>
    if isAsciiAlpha c then
      let nm := r.takeWhile fun x => !(isTagNameEnd x)
      match findGt (skipSeps (r.drop nm.length)) with
      | some rest => .close (pyLower (c :: nm)) rest
      | none => .closeStop (pyLower (c :: nm))
    else if c = '>' then .skip r
    else
      match findGt s with
      | some rest => .skip rest
      | none => .incomplete
  | [] => .incomplete

/-- `parse_endtag` (the text after `</`): strict `</\s*name\s*>` first,
then the tolerant fallback; with no `>` at all the construct is
incomplete. -/
def parseEndTag (s : Str) : EndTagParse :=
  if !(s.any fun c => c = '>') then .incomplete
  else
    match s.dropWhile isPySpace with
    | c :: r =>
      if isAsciiAlpha c then
        let nm := r.takeWhile isEndTagNameChar
        match (r.drop nm.length).dropWhile isPySpace with
        | g :: rest =>
          if g = '>' then .close (pyLower (c :: nm)) rest
          else parseEndTagTolerant s
        | [] => parseEndTagTolerant s
      else parseEndTagTolerant s
    | [] => parseEndTagTolerant s

/-- Does `</\s*elem\s*>` (case-insensitive) start here?  Returns the rest
after the `>` if so. -/
def matchCdataCloseAt (elem : Str) (s : Str) : Option Str :=
  match s with
  | a :: b :: r =>
    if a = '<' && b = '/' then
      let r1 := r.dropWhile isPySpace
      if pyLower (r1.take elem.length) = elem then
        match (r1.drop elem.length).dropWhile isPySpace with
        | g :: rest => if g = '>' then some rest else none
        | [] => none
      else none
    else none
  | _ => none

/-- Leftmost `</\s*elem\s*>` in the string: the raw data before it and the
rest after it. -/
def findCdataClose (elem : Str) : Str → Option (Str × Str)
  | [] => none
  | c :: t =>
    match matchCdataCloseAt elem (c :: t) with
    | some rest => some ([], rest)
    | none =>
      match findCdataClose elem t with
      | some (pre, rest) => some (c :: pre, rest)
      | none => none

/-- Leftmost `--\s*>` (the comment terminator); returns the rest after
it. -/
def findCommentClose : Str → Option Str
  | [] => none
  | c :: t =>
    if c = '-' then
      match t with
      | d :: t2 =>
        if d = '-' then
          match t2.dropWhile isPySpace with
          | g :: rest => if g = '>' then some rest else findCommentClose t
          | [] => findCommentClose t
        else findCommentClose t
      | [] => none
    else findCommentClose t

/-- Split at the first `<`. -/
def splitAtLt (s : Str) : Str × Option Str :=
  match s.findIdx? (fun c => c = '<') with
  | some i => (s.take i, some (s.drop i))
  | none => (s, none)

/-- The suffix starting at the last `&`, if any. -/
def lastAmpSuffix : Str → Option Str
  | [] => none
  | c :: t =>
    match lastAmpSuffix t with
    | some suf => some suf
    | none => if c = '&' then some (c :: t) else none

/-- `goahead`'s buffering of trailing text: with `feed` and no `close`, a
final chunk is withheld when a `&` in its last 34 characters is not
followed by whitespace or `;` (a character reference may be cut off). -/
def withholdTrailing (pre : Str) : Bool :=
  match lastAmpSuffix (pre.drop (pre.length - 34)) with
  | none => false
  | some suf => !(suf.any fun c => isPySpace c || c = ';')

/-- The data event for the text before a tag (empty text emits nothing;
charrefs are converted outside CDATA mode). -/
def prePart (pre : Str) : List HEvent :=
  if pre = [] then [] else [.chunk false (unescapeSubset pre)]

/-- The raw-text elements (`CDATA_CONTENT_ELEMENTS`). -/
def isCdataTag (tag : Str) : Bool := tag = str "script" || tag = str "style"

mutual

/-- `goahead` outside CDATA mode.  `cdataOn` selects whether raw-text
mode is entered for script/style (the real parser) or not (the spec's
nesting-depth reading). -/
def tokNormal (cdataOn : Bool) : Nat → Str → List HEvent
  | 0, _ => []
  | fuel + 1, s =>
    match splitAtLt s with
    | (pre, none) => if withholdTrailing pre then [] else prePart pre
    | (pre, some rest) => prePart pre ++ tokTag cdataOn fuel rest

/-- Dispatch at a `<`. -/
def tokTag (cdataOn : Bool) : Nat → Str → List HEvent
  | 0, _ => []
  | fuel + 1, s =>
    match s with
    | [] => []
    | _ :: r =>
      match r with
      | [] => []
      | c :: r2 =>
        if isAsciiAlpha c then
          match parseStartTag r with
          | .incomplete => []
          | .startTag tag attrs selfC rest =>
            if selfC then
              .tagOpen tag attrs :: .tagClose tag :: tokNormal cdataOn fuel rest
            else if cdataOn && isCdataTag tag then
              .tagOpen tag attrs :: tokCdata cdataOn fuel tag rest
            else .tagOpen tag attrs :: tokNormal cdataOn fuel rest
        else if c = '/' then
          match parseEndTag r2 with
          | .incomplete => []
          | .close tag rest => .tagClose tag :: tokNormal cdataOn fuel rest
          | .closeStop tag => [.tagClose tag]
          | .skip rest => tokNormal cdataOn fuel rest
        else if startsB (str "!--") r then
          match findCommentClose (r.drop 3) with
          | none => []
          | some rest => tokNormal cdataOn fuel rest
        else if c = '?' then
          match findGt r2 with
          | none => []
          | some rest => tokNormal cdataOn fuel rest
        else if c = '!' then
          match findGt r2 with
          | none => []
          | some rest => tokNormal cdataOn fuel rest
        else .chunk false ['<'] :: tokNormal cdataOn fuel r

/-- Raw-text (CDATA) mode for `elem`: everything up to the first
`</elem>` is one raw data event, then the end tag fires; an unterminated
region is withheld entirely. -/
def tokCdata (cdataOn : Bool) : Nat → Str → Str → List HEvent
  | 0, _, _ => []
  | fuel + 1, elem, s =>
    match findCdataClose elem s with
    | none => []
    | some (pre, rest) =>
      (if pre = [] then [] else [.chunk true pre]) ++
        .tagClose elem :: tokNormal cdataOn fuel rest

end

/-- Tokenize a complete document as `HTMLParser(...).feed(html)` does.
Every `tokNormal`/`tokTag` round trip consumes at least one character, so
`2 * length + 2` fuel is never exhausted. -/
def tokenize (html : Str) : List HEvent := tokNormal true (2 * html.length + 2) html

/-- Modelled from the spec: the same tokenizer with raw-text mode
disabled, so that nested `<script>`/`<style>` openings are reported as
tags and a nesting-depth skip really nests (spec section 4.1's "track
nesting depth so nested skip regions don't prematurely resume text
capture"). -/
def tokenizeNested (html : Str) : List HEvent :=
  tokNormal false (2 * html.length + 2) html

/-! ## The two `HTMLParser` subclasses -/

/-- State of `TextExtractor` (lines 148-170). -/
structure TEState where
  parts : List Str
  skip_depth : Nat
deriving DecidableEq, Repr

/-- The tag set skipped by `TextExtractor` (`{"script", "style"}`). -/
def teIsSkipTag (tag : Str) : Bool := tag = str "script" || tag = str "style"

/-- The three callbacks of `TextExtractor`: depth up on script/style
start, guarded depth down on their end, and data captured (cleaned, if
non-empty) only at depth zero. -/
def teStep (st : TEState) (e : HEvent) : TEState :=
  match e with
  | .tagOpen tag _ =>
    if teIsSkipTag tag then { st with skip_depth := st.skip_depth + 1 } else st
  | .tagClose tag =>
    if teIsSkipTag tag && decide (0 < st.skip_depth) then
      { st with skip_depth := st.skip_depth - 1 }
    else st
  | .chunk _ d =>
    if st.skip_depth ≠ 0 then st
    else
      let cleaned := collapse d
      if cleaned = [] then st else { st with parts := st.parts ++ [cleaned] }

/-- `TextExtractor().feed(html)` followed by `.text()`: the joined parts
after running all parser events. -/
def extract_text (html : Str) : Str :=
  joinSpace ((tokenize html).foldl teStep ⟨[], 0⟩).parts

/-- Modelled from the spec: the same extractor over the nesting-depth
tokenizer (`tokenizeNested`), realising section 4.1's description in
which nested skip regions are tracked by depth. -/
def extract_text_nested (html : Str) : Str :=
  joinSpace ((tokenizeNested html).foldl teStep ⟨[], 0⟩).parts

/-- The cleaned data chunks delivered outside raw-text regions, in
order. -/
def visibleChunks (evs : List HEvent) : List Str :=
  evs.filterMap fun e =>
    match e with
    | .chunk false d =>
      let cleaned := collapse d
      if cleaned = [] then none else some cleaned
    | _ => none

/-- State of `BingResultParser` (lines 128-146). -/
structure BRState where
  links : List Str
  in_result : Bool
deriving DecidableEq, Repr

/-- `dict(attrs).get(key)`: the last binding of the key wins. -/
def lookupLastAttr (attrs : List (Str × Option Str)) (key : Str) :
    Option (Option Str) :=
  (attrs.reverse.find? fun kv => kv.1 = key).map Prod.snd

/-- The callbacks of `BingResultParser`: a `li` with `b_algo` in its
class opens a result container; inside one, each `a` contributes its
(non-empty) `href`; `</li>` closes the container. -/
def brStep (st : BRState) (e : HEvent) : BRState :=
  match e with
  | .tagOpen tag attrs =>
    let classVal := lookupLastAttr attrs (str "class")
    if tag = str "li" && classVal.isSome &&
        containsB ((classVal.getD none).getD []) (str "b_algo") then
      { st with in_result := true }
    else if tag = str "a" && st.in_result then
      match lookupLastAttr attrs (str "href") with
      | some (some v) => if v ≠ [] then { st with links := st.links ++ [v] } else st
      | _ => st
    else st
  | .tagClose tag =>
    if tag = str "li" && st.in_result then { st with in_result := false } else st
  | .chunk _ _ => st

/-- `BingResultParser().feed(html)` followed by reading `.links`. -/
def bingParserLinks (html : Str) : List Str :=
  ((tokenize html).foldl brStep ⟨[], false⟩).links

/-- The post-processing loop of `bing_search` (lines 236-247): normalise,
keep links starting with "http", first-occurrence dedup, and stop after
the append that reaches `max_results`. -/
def bingCollect (max_results : Nat) : List Str → List Str → List Str → List Str
  | [], _, results => results
  | link :: rest, seen, results =>
    let normalized := normalize_bing_link link
    if !(startsB (str "http") normalized) then
      bingCollect max_results rest seen results
    else if seen.contains normalized then
      bingCollect max_results rest seen results
    else
      let seen2 := normalized :: seen
      let results2 := results ++ [normalized]
      if max_results ≤ results2.length then results2
      else bingCollect max_results rest seen2 results2

/-- The pure part of `bing_search` (lines 229-249): the fetched
results-page HTML is a parameter, the network call being external. -/
def bing_search (html : Str) (max_results : Nat) : List Str :=
  bingCollect max_results (bingParserLinks html) [] []

/-! ## Page-field extraction and the candidate pipeline -/

/-- `extract_title` (lines 195-199): the leftmost
`<title[^>]*>(.*?)</title>` match (case-insensitive, dot-all), unescaped
and stripped.  For this pattern the first case-insensitive `<title`
occurrence decides: if it has no following `>` or no `</title>` after
that, no later occurrence can have one either. -/
def extract_title (html_text : Str) : Str :=
  let lw := pyLower html_text
  match pyFind lw (str "<title") with
  | none => []
  | some j =>
    match (lw.drop (j + 6)).findIdx? (fun c => c = '>') with
    | none => []
    | some g =>
      let contentStart := j + 6 + g + 1
      match pyFind (lw.drop contentStart) (str "</title>") with
      | none => []
      | some e => pyStrip (unescapeSubset ((html_text.drop contentStart).take e))

/-- `re.sub(r"<[^>]+>", " ", s)`: each `<`, at least one non-`>`, `>`
becomes one space; an unmatched `<` stays. -/
def stripTags : Str → Str
  | [] => []
  | c :: rest =>
    if c = '<' then
      match rest.findIdx? (fun x => x = '>') with
      | some i =>
        if 1 ≤ i then ' ' :: stripTags (rest.drop (i + 1))
        else c :: stripTags rest
      | none => c :: stripTags rest
    else c :: stripTags rest
termination_by s => s.length
decreasing_by
  all_goals simp [List.length_drop]
  all_goals omega

/-- `extract_h1` (lines 202-207): like the title, then inner tags become
spaces, whitespace is collapsed, entities unescaped, ends stripped. -/
def extract_h1 (html_text : Str) : Str :=
  let lw := pyLower html_text
  match pyFind lw (str "<h1") with
  | none => []
  | some j =>
    match (lw.drop (j + 3)).findIdx? (fun c => c = '>') with
    | none => []
    | some g =>
      let contentStart := j + 3 + g + 1
      match pyFind (lw.drop contentStart) (str "</h1>") with
      | none => []
      | some e =>
        pyStrip (unescapeSubset (collapse (stripTags
          ((html_text.drop contentStart).take e))))

/-- The separators tried by `guess_name` (line 307), in order. -/
def GUESS_SEPS : List Str := [str "|", str "-", str "—", str ":"]

/-- The separator loop of `guess_name`: the first separator contained in
the candidate truncates it at that separator's first occurrence. -/
def guessSepLoop (candidate : Str) : List Str → Str
  | [] => candidate
  | sep :: rest =>
    if containsB candidate sep then
      match pyFind candidate sep with
      | some i => candidate.take i
      | none => candidate
    else guessSepLoop candidate rest

/-- `guess_name` (lines 303-311). -/
def guess_name (title h1 : Str) : Str :=
  let candidate := if h1 ≠ [] then h1 else title
  if candidate = [] then []
  else pyStrip (collapse (guessSepLoop candidate GUESS_SEPS))

/-- The exception value for a Python-level error escaping a function. -/
inductive PyError where
  | reError
deriving DecidableEq, Repr

/-- `extract_linkedin` (lines 262-266).  Its raw-string pattern doubles
every backslash, so its character class reads backslash, `w`, backslash,
hyphen, slash, `%`, `?`, `=`, `&`, `#`, `.` — and the escaped backslash
followed by hyphen and slash forms the range from 0x5C down to 0x2F,
which is reversed.  `re.compile` therefore raises
`re.error: bad character range` on every call, and there is no `try`
around the call site in `build_candidates` (line 381). -/
def extract_linkedin (_html_text : Str) : Except PyError Str :=
  .error .reError

/-- `search_linkedin` (lines 314-326), over a stubbed `bing_search` whose
`none` models a raised exception (caught here, returning ""). -/
def search_linkedin (search : Str → Nat → Option (List Str)) (name : Str) : Str :=
  if name = [] then []
  else
    match search (str "\"" ++ name ++ str "\" executive coach LinkedIn") 5 with
    | none => []
    | some results =>
      match results.find? (fun link =>
          containsB (pyLower link) (str "linkedin.com/in")) with
      | some link => link
      | none => []

/-- Scheme characters of `urlsplit` after the first. -/
def isSchemeChar (c : Char) : Bool :=
  isAsciiAlpha c || isDigitC c || c = '+' || c = '-' || c = '.'

/-- Strip a valid `scheme:` from the URL, as `urlsplit` does. -/
def splitSchemeRest (url : Str) : Str :=
  match url.findIdx? (fun c => c = ':') with
  | none => url
  | some i =>
    if 0 < i then
      match url with
      | c :: _ =>
        if isAsciiAlpha c && (url.take i).all isSchemeChar then url.drop (i + 1)
        else url
      | [] => url
    else url

/-- `urlparse(url).netloc`: present only after `//`, running to the next
`/`, `?` or `#`. -/
def netloc (url : Str) : Str :=
  let rest := splitSchemeRest url
  if startsB (str "//") rest then
    (rest.drop 2).takeWhile fun c => c ≠ '/' && c ≠ '?' && c ≠ '#'
  else []

/-- The `Lead` dataclass (lines 117-125). -/
structure Lead where
  name : Str
  role : Str
  website_url : Str
  linkedin_url : Str
  location : Str
  specialty : Str
  evidence : Str
deriving DecidableEq, Repr

/-- Outcome of the inner link loop of `build_candidates`: an early
`return leads` or fall-through with the updated dedup set and leads. -/
inductive LinkStep where
  | done (leads : List Lead)
  | cont (seen : List Str) (leads : List Lead)

/-- The inner `for link in results` loop of `build_candidates`
(lines 348-396).  `search` and `fetch` are the stubbed `bing_search` and
`fetch_url`; `none` models a raised exception.  The two redundant
fallback branches at lines 377-380 both assign `target`, embedded as a
single conditional. -/
def processLinks (search : Str → Nat → Option (List Str))
    (fetch : Str → Option Str) (limit : Nat) (target : Str) :
    List Str → List Str → List Lead → Except PyError LinkStep
  | [], seen, leads => .ok (.cont seen leads)
  | link :: rest, seen, leads =>
    if limit ≤ leads.length then .ok (.done leads)
    else
      let domain := pyLower (netloc link)
      if domain = [] || seen.contains domain then
        processLinks search fetch limit target rest seen leads
      else if containsB domain (str "linkedin.com") then
        processLinks search fetch limit target rest seen leads
      else
        let seen2 := domain :: seen
        match fetch link with
        | none => processLinks search fetch limit target rest seen2 leads
        | some html_text =>
          let title := extract_title html_text
          let h1 := extract_h1 html_text
          let text := extract_text html_text
          if !(looks_like_executive_coach text) then
            processLinks search fetch limit target rest seen2 leads
          else if contains_excluded_keywords text then
            processLinks search fetch limit target rest seen2 leads
          else
            let name := guess_name title h1
            let location0 := extract_location text
            let location := if location0 = [] then target else location0
            match extract_linkedin html_text with
            | .error e => .error e
            | .ok lk =>
              let linkedin_url := if lk = [] then search_linkedin search name else lk
              let lead : Lead :=
                { name := if name = [] then str "Unknown" else name
                  role := str "Executive Coach"
                  website_url := link
                  linkedin_url := linkedin_url
                  location := location
                  specialty := extract_specialty text
                  evidence := extract_evidence text }
              processLinks search fetch limit target rest seen2 (leads ++ [lead])

/-- `search_targets` (line 334): cities then bare state names. -/
def search_targets : List Str :=
  EAST_COAST_CITIES ++ EAST_COAST_STATES.map Prod.fst

/-- The outer loops of `build_candidates` (lines 337-347), walked as the
(target, seed) pairs in nesting order; a failed search skips to the next
pair. -/
def processPairs (search : Str → Nat → Option (List Str))
    (fetch : Str → Option Str) (limit : Nat) :
    List (Str × Str) → List Str → List Lead → Except PyError (List Lead)
  | [], _, leads => .ok leads
  | (target, seed) :: rest, seen, leads =>
    if limit ≤ leads.length then .ok leads
    else
      match search (str "\"" ++ seed ++ str "\" \"" ++ target ++ str "\"") 10 with
      | none => processPairs search fetch limit rest seen leads
      | some results =>
        match processLinks search fetch limit target results seen leads with
        | .error e => .error e
        | .ok (.done ls) => .ok ls
        | .ok (.cont seen2 leads2) => processPairs search fetch limit rest seen2 leads2

/-- `build_candidates` (lines 329-397), with search and page fetch
stubbed. -/
def build_candidates (search : Str → Nat → Option (List Str))
    (fetch : Str → Option Str) (limit : Nat) : Except PyError (List Lead) :=
  processPairs search fetch limit
    ((search_targets.map fun t => SEARCH_SEEDS.map fun sd => (t, sd)).flatten) [] []

/-- A search stub returning the same three unique-domain links for every
query. -/
def stubSearch : Str → Nat → Option (List Str) :=
  fun _ _ => some [str "http://coach-a.example/", str "http://coach-b.example/",
    str "http://coach-c.example/"]

/-- A page passing the qualification filter. -/
def qualifyingPage : Str :=
  str "<title>Jane Doe</title><p>Great executive coaching for leaders</p>"

/-- A fetch stub returning the qualifying page for every link. -/
def stubFetch : Str → Option Str := fun _ => some qualifyingPage

/-! ## Lemmas about the string model -/

theorem startsB_iff (n : Str) : ∀ h : Str, startsB n h = true ↔ n <+: h := by
  induction n with
  | nil => intro h; simp [startsB, List.nil_prefix]
  | cons a n' ih =>
    intro h
    cases h with
    | nil => simp [startsB]
    | cons b h' =>
      simp [startsB, Bool.and_eq_true, decide_eq_true_eq, List.cons_prefix_cons, ih]

theorem pyFindAux_isSome (n : Str) :
    ∀ (h : Str) (k : Nat), (pyFindAux n h k).isSome = true ↔ n <:+: h := by
  intro h
  induction h with
  | nil =>
    intro k
    by_cases hs : startsB n [] = true
    · have hn : n = [] := List.prefix_nil.mp ((startsB_iff n []).mp hs)
      simp [pyFindAux, hs, hn, List.infix_nil, startsB]
    · show (if startsB n [] = true then some k else none).isSome = true ↔ n <:+: []
      rw [if_neg hs]
      simp only [Option.isSome_none, Bool.false_eq_true, false_iff, List.infix_nil]
      intro hn
      exact hs ((startsB_iff n []).mpr (by simp [hn]))
  | cons b t ih =>
    intro k
    by_cases hs : startsB n (b :: t) = true
    · show (if startsB n (b :: t) = true then some k else pyFindAux n t (k + 1)).isSome
          = true ↔ n <:+: b :: t
      rw [if_pos hs]
      simp only [Option.isSome_some, true_iff]
      exact ((startsB_iff _ _).mp hs).isInfix
    · have hrw : pyFindAux n (b :: t) k = pyFindAux n t (k + 1) := by
        show (if startsB n (b :: t) = true then some k else pyFindAux n t (k + 1)) = _
        rw [if_neg hs]
      rw [hrw, ih, List.infix_cons_iff]
      constructor
      · exact Or.inr
      · rintro (hp | hin)
        · exact absurd ((startsB_iff _ _).mpr hp) hs
        · exact hin

theorem containsB_iff (h n : Str) : containsB h n = true ↔ n <:+: h :=
  pyFindAux_isSome n h 0

theorem pyFindAux_eq_some (n : Str) :
    ∀ (h : Str) (k i : Nat), pyFindAux n h k = some i ↔
      (k ≤ i ∧ startsB n (h.drop (i - k)) = true ∧
        ∀ j, j < i - k → startsB n (h.drop j) = false) := by
  intro h
  induction h with
  | nil =>
    intro k i
    by_cases hs : startsB n [] = true
    · show (if startsB n [] = true then some k else none) = some i ↔ _
      rw [if_pos hs]
      simp only [List.drop_nil, Option.some.injEq]
      constructor
      · rintro rfl
        exact ⟨le_refl _, hs, fun j hj => absurd hj (by omega)⟩
      · rintro ⟨hk, -, hall⟩
        by_cases hik : k = i
        · exact hik
        · exact absurd (hall 0 (by omega)) (by simp [hs])
    · show (if startsB n [] = true then some k else none) = some i ↔ _
      rw [if_neg hs]
      simp only [List.drop_nil]
      constructor
      · rintro ⟨⟩
      · rintro ⟨hk, hpre, -⟩
        exact absurd hpre hs
  | cons b t ih =>
    intro k i
    by_cases hs : startsB n (b :: t) = true
    · show (if startsB n (b :: t) = true then some k else pyFindAux n t (k + 1))
          = some i ↔ _
      rw [if_pos hs]
      simp only [Option.some.injEq]
      constructor
      · rintro rfl
        exact ⟨le_refl _, by simpa [Nat.sub_self] using hs,
          fun j hj => absurd hj (by omega)⟩
      · rintro ⟨hk, hpre, hall⟩
        by_cases hik : k = i
        · exact hik
        · have h0 := hall 0 (by omega)
          rw [List.drop_zero] at h0
          exact absurd h0 (by simp [hs])
    · have hrw : pyFindAux n (b :: t) k = pyFindAux n t (k + 1) := by
        show (if startsB n (b :: t) = true then some k else pyFindAux n t (k + 1)) = _
        rw [if_neg hs]
      rw [hrw, ih]
      constructor
      · rintro ⟨hk, hpre, hall⟩
        refine ⟨by omega, ?_, ?_⟩
        · have hd : (b :: t).drop (i - k) = t.drop (i - (k + 1)) := by
            have h1 : i - k = (i - (k + 1)) + 1 := by omega
            rw [h1, List.drop_succ_cons]
          rw [hd]; exact hpre
        · intro j hj
          match j with
          | 0 => simpa using hs
          | j' + 1 =>
            rw [List.drop_succ_cons]
            exact hall j' (by omega)
      · rintro ⟨hk, hpre, hall⟩
        have hik : k + 1 ≤ i := by
          rcases Nat.lt_or_ge k i with h1 | h1
          · omega
          · exfalso
            have hkk : i = k := by omega
            subst hkk
            simp only [Nat.sub_self, List.drop_zero] at hpre
            exact hs hpre
        refine ⟨hik, ?_, ?_⟩
        · have hd : (b :: t).drop (i - k) = t.drop (i - (k + 1)) := by
            have h1 : i - k = (i - (k + 1)) + 1 := by omega
            rw [h1, List.drop_succ_cons]
          rw [hd] at hpre; exact hpre
        · intro j hj
          have := hall (j + 1) (by omega)
          rw [List.drop_succ_cons] at this
          exact this

theorem pyFind_eq_some_iff (h n : Str) (i : Nat) :
    pyFind h n = some i ↔
      (n <+: h.drop i ∧ ∀ j, j < i → ¬ n <+: h.drop j) := by
  rw [pyFind, pyFindAux_eq_some]
  simp only [Nat.zero_le, Nat.sub_zero, true_and, startsB_iff]
  constructor
  · rintro ⟨hpre, hall⟩
    refine ⟨hpre, fun j hj hp => ?_⟩
    have h0 := hall j hj
    rw [(startsB_iff _ _).mpr hp] at h0
    cases h0
  · rintro ⟨hpre, hall⟩
    refine ⟨hpre, fun j hj => ?_⟩
    exact Bool.eq_false_iff.mpr (fun htrue => hall j hj ((startsB_iff _ _).mp htrue))

theorem pySplitAux_cons (c : Char) (s : Str) :
    pySplitAux (c :: s) = pySplitStep c (pySplitAux s) := rfl

theorem pySplit_cons_space (c : Char) (s : Str) (hc : isPySpace c = true) :
    pySplit (c :: s) = pySplit s := by
  unfold pySplit
  rw [pySplitAux_cons]
  unfold pySplitStep
  rw [if_pos hc]
  by_cases h2 : (pySplitAux s).2 = []
  · simp [h2]
  · simp [h2]

theorem pySplit_cons_nonspace (c : Char) (s : Str) (hc : isPySpace c = false) :
    pySplit (c :: s) = (c :: (pySplitAux s).2) :: (pySplitAux s).1 := by
  have hstep : pySplitAux (c :: s) = ((pySplitAux s).1, c :: (pySplitAux s).2) := by
    rw [pySplitAux_cons]
    simp [pySplitStep, hc]
  unfold pySplit
  rw [hstep]
  simp

theorem joinSpace_cons_append (a : Str) (l : List Str) :
    ∃ t, joinSpace (a :: l) = a ++ t := by
  cases l with
  | nil => exact ⟨[], by simp [joinSpace, List.intercalate, List.intersperse]⟩
  | cons b l' =>
    refine ⟨[' '] ++ List.intercalate [' '] (b :: l'), ?_⟩
    simp [joinSpace, List.intercalate, List.intersperse]

theorem collapse_cons_space (c : Char) (s : Str) (hc : isPySpace c = true) :
    collapse (c :: s) = collapse s := by
  unfold collapse
  rw [pySplit_cons_space c s hc]

theorem collapse_ne_nil (s : Str) (hc : ∃ c ∈ s, isPySpace c = false) :
    collapse s ≠ [] := by
  induction s with
  | nil => rcases hc with ⟨c, hmem, -⟩; cases hmem
  | cons a s' ih =>
    by_cases ha : isPySpace a = true
    · rw [collapse_cons_space a s' ha]
      rcases hc with ⟨c, hmem, hcs⟩
      rcases List.mem_cons.mp hmem with rfl | hmem'
      · rw [ha] at hcs; cases hcs
      · exact ih ⟨c, hmem', hcs⟩
    · unfold collapse
      rw [pySplit_cons_nonspace a s' (Bool.eq_false_iff.mpr ha)]
      rcases joinSpace_cons_append (a :: (pySplitAux s').2) (pySplitAux s').1 with ⟨t, ht⟩
      rw [ht]
      simp

theorem toLower_of_pySpace (c : Char) (hc : isPySpace c = true) : c.toLower = c := by
  simp only [isPySpace, Bool.or_eq_true, decide_eq_true_eq] at hc
  rcases hc with ((((rfl | rfl) | rfl) | rfl) | rfl) | rfl <;> decide

theorem evidence_window_ne_nil (text phrase : Str) (idx : Nat) (c0 : Char) (r0 : Str)
    (hph : phrase = c0 :: r0) (hsp : isPySpace c0 = false)
    (hfind : pyFind (pyLower text) phrase = some idx) :
    collapse ((text.take (idx + 120)).drop (idx - 60)) ≠ [] := by
  rcases (pyFind_eq_some_iff _ _ _).mp hfind with ⟨hpre, -⟩
  have hlen : idx < text.length := by
    have h1 : phrase.length ≤ ((pyLower text).drop idx).length :=
      hpre.length_le
    have h2 : ((pyLower text).drop idx).length = text.length - idx := by
      simp [pyLower]
    rw [hph] at h1
    simp only [List.length_cons] at h1
    omega
  have hlen2 : idx < (pyLower text).length := by simpa [pyLower] using hlen
  have hdroplen : 0 < ((pyLower text).drop idx).length := by
    simp only [List.length_drop]
    omega
  have h0 : ((pyLower text).drop idx)[0] = c0 := by
    rw [← hpre.getElem (show (0 : Nat) < phrase.length by simp [hph])]
    simp [hph]
  have hget : (pyLower text)[idx] = c0 := by
    rw [List.getElem_drop] at h0
    simpa using h0
  have hch : (text[idx]).toLower = c0 := by
    have h1 := hget
    unfold pyLower at h1
    rw [List.getElem_map] at h1
    exact h1
  have hchsp : isPySpace (text[idx]) = false := by
    by_contra hcon
    have h1 : isPySpace (text[idx]) = true := by
      revert hcon; cases isPySpace (text[idx]) <;> simp
    have h2 := toLower_of_pySpace _ h1
    rw [hch] at h2
    rw [← h2] at h1
    rw [h1] at hsp
    cases hsp
  apply collapse_ne_nil
  refine ⟨text[idx], ?_, hchsp⟩
  have hjlt : idx - (idx - 60) < ((text.take (idx + 120)).drop (idx - 60)).length := by
    simp only [List.length_drop, List.length_take]
    omega
  have hmain : ((text.take (idx + 120)).drop (idx - 60))[idx - (idx - 60)]
      = text[idx] := by
    rw [List.getElem_drop]
    have harg : idx - 60 + (idx - (idx - 60)) = idx := by omega
    rw [List.getElem_take]
    congr 1
  rw [← hmain]
  exact List.getElem_mem _

/-- C6: the qualification filter used by `build_candidates` (lines 369-373)
accepts a page text iff the lowered text contains at least one of the three
trigger phrases and none of the fixed exclusion keywords, both as
case-insensitive substring tests. -/
theorem qualification_filter_iff (text : Str) :
    (looks_like_executive_coach text && !contains_excluded_keywords text) = true ↔
      ((str "executive coach" <:+: pyLower text ∨
        str "executive coaching" <:+: pyLower text ∨
        str "leadership coach" <:+: pyLower text) ∧
        ∀ k ∈ EXCLUDE_KEYWORDS, ¬ k <:+: pyLower text) := by
  rw [Bool.and_eq_true, Bool.not_eq_true']
  rw [show (contains_excluded_keywords text = false) ↔
      ¬ (contains_excluded_keywords text = true) by simp]
  rw [looks_like_executive_coach]
  rw [contains_excluded_keywords]
  simp only [Bool.or_eq_true, containsB_iff, List.any_eq_true, not_exists, or_assoc]
  constructor
  · rintro ⟨h1, h2⟩
    exact ⟨h1, fun k hk hin => h2 k ⟨hk, hin⟩⟩
  · rintro ⟨h1, h2⟩
    exact ⟨h1, fun k hk => h2 k hk.1 hk.2⟩

theorem extract_evidence_ne_nil_of_infix (text : Str)
    (hyp : str "executive coach" <:+: pyLower text ∨
      str "leadership coach" <:+: pyLower text) :
    extract_evidence text ≠ [] := by
  cases hE : pyFind (pyLower text) (str "executive coach") with
  | some idx =>
    have hres : extract_evidence text =
        collapse ((text.take (idx + 120)).drop (idx - 60)) := by
      simp [extract_evidence, EVIDENCE_PHRASES, evidenceLoop, hE]
    rw [hres]
    exact evidence_window_ne_nil text _ idx 'e' (str "xecutive coach")
      (by decide) (by decide) hE
  | none =>
    cases hC : pyFind (pyLower text) (str "executive coaching") with
    | some idx =>
      have hres : extract_evidence text =
          collapse ((text.take (idx + 120)).drop (idx - 60)) := by
        simp [extract_evidence, EVIDENCE_PHRASES, evidenceLoop, hE, hC]
      rw [hres]
      exact evidence_window_ne_nil text _ idx 'e' (str "xecutive coaching")
        (by decide) (by decide) hC
    | none =>
      cases hL : pyFind (pyLower text) (str "leadership coach") with
      | some idx =>
        have hres : extract_evidence text =
            collapse ((text.take (idx + 120)).drop (idx - 60)) := by
          simp [extract_evidence, EVIDENCE_PHRASES, evidenceLoop, hE, hC, hL]
        rw [hres]
        exact evidence_window_ne_nil text _ idx 'l' (str "eadership coach")
          (by decide) (by decide) hL
      | none =>
        exfalso
        rcases hyp with hyp | hyp
        · have h1 : containsB (pyLower text) (str "executive coach") = true :=
            (containsB_iff _ _).mpr hyp
          rw [containsB, pyFind] at h1
          rw [pyFind] at hE
          rw [hE] at h1
          cases h1
        · have h1 : containsB (pyLower text) (str "leadership coach") = true :=
            (containsB_iff _ _).mpr hyp
          rw [containsB, pyFind] at h1
          rw [pyFind] at hL
          rw [hL] at h1
          cases h1

/-- C8 (amended): `extract_evidence` returns the empty string exactly when
no trigger phrase occurs in the lowered text; the phrases are tried in the
fixed order "executive coach", "executive coaching", "leadership coach"
(phrase-priority, not first position in the text), and whichever phrase
wins — the first in that order to occur, each case stated below — the
returned window runs from 60 characters before to 120 characters after
the start of that phrase's first occurrence, whitespace-collapsed from
the original (not lower-cased) text. -/
theorem extract_evidence_amended (text : Str) :
    (extract_evidence text = [] ↔
      ¬ str "executive coach" <:+: pyLower text ∧
      ¬ str "executive coaching" <:+: pyLower text ∧
      ¬ str "leadership coach" <:+: pyLower text) ∧
    (∀ i, str "executive coach" <+: (pyLower text).drop i →
      (∀ j, j < i → ¬ str "executive coach" <+: (pyLower text).drop j) →
      extract_evidence text = collapse ((text.take (i + 120)).drop (i - 60))) ∧
    (∀ i, ¬ str "executive coach" <:+: pyLower text →
      str "executive coaching" <+: (pyLower text).drop i →
      (∀ j, j < i → ¬ str "executive coaching" <+: (pyLower text).drop j) →
      extract_evidence text = collapse ((text.take (i + 120)).drop (i - 60))) ∧
    (∀ i, ¬ str "executive coach" <:+: pyLower text →
      ¬ str "executive coaching" <:+: pyLower text →
      str "leadership coach" <+: (pyLower text).drop i →
      (∀ j, j < i → ¬ str "leadership coach" <+: (pyLower text).drop j) →
      extract_evidence text = collapse ((text.take (i + 120)).drop (i - 60))) := by
  refine ⟨⟨?_, ?_⟩, ?_, ?_, ?_⟩
  · intro hnil
    refine ⟨?_, ?_, ?_⟩
    · intro hin
      exact extract_evidence_ne_nil_of_infix text (Or.inl hin) hnil
    · intro hin
      have h1 : str "executive coach" <:+: pyLower text :=
        ((by decide : str "executive coach" <+: str "executive coaching").isInfix).trans
          hin
      exact extract_evidence_ne_nil_of_infix text (Or.inl h1) hnil
    · intro hin
      exact extract_evidence_ne_nil_of_infix text (Or.inr hin) hnil
  · rintro ⟨h1, h2, h3⟩
    have hE : pyFind (pyLower text) (str "executive coach") = none := by
      rw [← Option.not_isSome_iff_eq_none]
      intro hsome
      exact h1 ((containsB_iff _ _).mp hsome)
    have hC : pyFind (pyLower text) (str "executive coaching") = none := by
      rw [← Option.not_isSome_iff_eq_none]
      intro hsome
      exact h2 ((containsB_iff _ _).mp hsome)
    have hL : pyFind (pyLower text) (str "leadership coach") = none := by
      rw [← Option.not_isSome_iff_eq_none]
      intro hsome
      exact h3 ((containsB_iff _ _).mp hsome)
    simp [extract_evidence, EVIDENCE_PHRASES, evidenceLoop, hE, hC, hL]
  · intro i hpre hfirst
    have hfind : pyFind (pyLower text) (str "executive coach") = some i :=
      (pyFind_eq_some_iff _ _ _).mpr ⟨hpre, hfirst⟩
    simp [extract_evidence, EVIDENCE_PHRASES, evidenceLoop, hfind]
  · intro i h1 hpre hfirst
    have hE : pyFind (pyLower text) (str "executive coach") = none := by
      rw [← Option.not_isSome_iff_eq_none]
      intro hsome
      exact h1 ((containsB_iff _ _).mp hsome)
    have hfind : pyFind (pyLower text) (str "executive coaching") = some i :=
      (pyFind_eq_some_iff _ _ _).mpr ⟨hpre, hfirst⟩
    simp [extract_evidence, EVIDENCE_PHRASES, evidenceLoop, hE, hfind]
  · intro i h1 h2 hpre hfirst
    have hE : pyFind (pyLower text) (str "executive coach") = none := by
      rw [← Option.not_isSome_iff_eq_none]
      intro hsome
      exact h1 ((containsB_iff _ _).mp hsome)
    have hC : pyFind (pyLower text) (str "executive coaching") = none := by
      rw [← Option.not_isSome_iff_eq_none]
      intro hsome
      exact h2 ((containsB_iff _ _).mp hsome)
    have hfind : pyFind (pyLower text) (str "leadership coach") = some i :=
      (pyFind_eq_some_iff _ _ _).mpr ⟨hpre, hfirst⟩
    simp [extract_evidence, EVIDENCE_PHRASES, evidenceLoop, hE, hC, hfind]

/-- C8 (witness): the amended theorem applied to a concrete text whose only
trigger phrase is "leadership coach", first occurring at index 2. -/
theorem extract_evidence_amended_witness :
    extract_evidence (str "a leadership coach here") =
      collapse (((str "a leadership coach here").take (2 + 120)).drop (2 - 60)) :=
  (extract_evidence_amended (str "a leadership coach here")).2.2.2 2
    (by decide) (by decide) (by decide) (by decide)

/-- C8 (counterexample): in `evidenceCounterT` the first occurrence in the
text of any trigger phrase is "leadership coach" at index 0, but
`extract_evidence` centres its window on the later "executive coach"
occurrence because phrases are tried in a fixed priority order; the result
differs from the spec's first-occurrence-in-text reading
(`extract_evidence_spec`). -/
theorem extract_evidence_priority_counterexample :
    pyFind (pyLower evidenceCounterT) (str "leadership coach") = some 0 ∧
      extract_evidence evidenceCounterT ≠ extract_evidence_spec evidenceCounterT := by
  constructor
  · decide
  · decide

/-- C7 (code_bug): the location extractor never recognises "City, ST".
Its regex raw string doubles every backslash, so `\\b` and `\\s` demand
literal backslash characters in the page text; on the plain text
"Boston, MA" the function returns the empty string where the claim (and
spec) require "Boston, MA".  The only live behaviour is the bare
full-state-name fallback, shown by the second conjunct. -/
theorem extract_location_boston_ma :
    extract_location (str "Boston, MA") = [] ∧
      extract_location (str "serving clients across Massachusetts") =
        str "Massachusetts" := by
  refine ⟨by decide, by decide⟩

/-- C4 (amended): `normalize_bing_link` leaves a link unchanged when it is
not redirect-wrapped, when the `u` payload is missing or fails to decode,
and also when the decoded payload does not start with "http"; it
substitutes the decoded payload exactly when that payload starts with
"http" (rather than the claim's "is an absolute URL"). -/
theorem normalize_bing_link_amended (link : Str) :
    (¬ str "bing.com/ck/a" <:+: link → normalize_bing_link link = link) ∧
    (bingPayload link = none → normalize_bing_link link = link) ∧
    (∀ s, bingPayload link = some s →
      (str "http" <+: s → normalize_bing_link link = s) ∧
      (¬ str "http" <+: s → normalize_bing_link link = link)) := by
  refine ⟨?_, ?_, ?_⟩
  · intro hni
    have h1 : containsB link (str "bing.com/ck/a") = false :=
      Bool.eq_false_iff.mpr fun ht => hni ((containsB_iff _ _).mp ht)
    simp [normalize_bing_link, h1]
  · intro hnone
    by_cases h1 : containsB link (str "bing.com/ck/a") = true
    · by_cases h2 : (parse_qs_u (urlQuery link)).getD [] = []
      · simp [normalize_bing_link, h1, h2]
      · cases hb : b64decodeLegacy (urlsafeTranslate (bingEncodedPadded link)) with
        | none => simp [normalize_bing_link, h1, h2, hb]
        | some bytes =>
          exfalso
          rw [bingPayload] at hnone
          simp [h1, h2, hb] at hnone
    · have h1f : containsB link (str "bing.com/ck/a") = false :=
        Bool.eq_false_iff.mpr h1
      simp [normalize_bing_link, h1f]
  · intro s hs
    by_cases h1 : containsB link (str "bing.com/ck/a") = true
    · by_cases h2 : (parse_qs_u (urlQuery link)).getD [] = []
      · rw [bingPayload] at hs
        simp [h1, h2] at hs
      · cases hb : b64decodeLegacy (urlsafeTranslate (bingEncodedPadded link)) with
        | none =>
          rw [bingPayload] at hs
          simp [h1, h2, hb] at hs
        | some bytes =>
          have hsb : utf8DecodeReplace bytes = s := by
            rw [bingPayload] at hs
            simpa [h1, h2, hb] using hs
          constructor
          · intro hp
            have hst : startsB (str "http") s = true := (startsB_iff _ _).mpr hp
            simp [normalize_bing_link, h1, h2, hb, hsb, hst]
          · intro hp
            have hst : startsB (str "http") s = false :=
              Bool.eq_false_iff.mpr fun ht => hp ((startsB_iff _ _).mp ht)
            simp [normalize_bing_link, h1, h2, hb, hsb, hst]
    · have h1f : containsB link (str "bing.com/ck/a") = false :=
        Bool.eq_false_iff.mpr h1
      rw [bingPayload] at hs
      simp [h1f] at hs

/-- C4 (witness): the amended theorem applied to a concrete redirect link
whose `a1`-prefixed, padding-corrected payload decodes to
`http://example.com/`. -/
theorem normalize_bing_link_amended_witness :
    normalize_bing_link bingHttpLink = str "http://example.com/" :=
  ((normalize_bing_link_amended bingHttpLink).2.2 (str "http://example.com/")
    (by decide)).1 (by decide)

/-- C4 (counterexample): a redirect link whose validly base64url-encoded
payload decodes to the absolute URL `ftp://files.example.com/a`; the claim
says the decoded URL is returned, but the code checks
`decoded.startswith("http")` and keeps the original link. -/
theorem normalize_bing_link_absolute_counterexample :
    bingPayload bingFtpLink = some (str "ftp://files.example.com/a") ∧
      normalize_bing_link bingFtpLink = bingFtpLink ∧
      bingFtpLink ≠ str "ftp://files.example.com/a" := by
  refine ⟨by decide, by decide, by decide⟩

/-! ## The text extractor consumes exactly the data outside raw-text
regions -/

theorem teIsSkipTag_eq (tag : Str) : teIsSkipTag tag = isCdataTag tag := rfl

theorem teStep_chunk_zero (parts : List Str) (d : Str) :
    teStep ⟨parts, 0⟩ (.chunk false d) =
      ⟨parts ++ visibleChunks [.chunk false d], 0⟩ := by
  simp only [teStep, visibleChunks, List.filterMap]
  by_cases hc : collapse d = [] <;> simp [hc]

theorem foldl_prePart (pre : Str) (parts : List Str) :
    (prePart pre).foldl teStep ⟨parts, 0⟩ =
      ⟨parts ++ visibleChunks (prePart pre), 0⟩ := by
  unfold prePart
  by_cases hp : pre = []
  · simp [hp, visibleChunks]
  · simp only [hp, if_false, List.foldl_cons, List.foldl_nil]
    exact teStep_chunk_zero parts (unescapeSubset pre)

theorem visibleChunks_append (a b : List HEvent) :
    visibleChunks (a ++ b) = visibleChunks a ++ visibleChunks b := by
  simp [visibleChunks, List.filterMap_append]

theorem tok_fold_parts (fuel : Nat) :
    (∀ s parts, ((tokNormal true fuel s).foldl teStep ⟨parts, 0⟩).parts =
      parts ++ visibleChunks (tokNormal true fuel s)) ∧
    (∀ s parts, ((tokTag true fuel s).foldl teStep ⟨parts, 0⟩).parts =
      parts ++ visibleChunks (tokTag true fuel s)) ∧
    (∀ elem s parts, teIsSkipTag elem = true →
      ((tokCdata true fuel elem s).foldl teStep ⟨parts, 1⟩).parts =
        parts ++ visibleChunks (tokCdata true fuel elem s)) := by
  induction fuel with
  | zero =>
    refine ⟨?_, ?_, ?_⟩
    · intro s parts; simp [tokNormal, visibleChunks]
    · intro s parts; simp [tokTag, visibleChunks]
    · intro elem s parts _; simp [tokCdata, visibleChunks]
  | succ f ih =>
    obtain ⟨ihN, ihT, ihC⟩ := ih
    refine ⟨?_, ?_, ?_⟩
    · intro s parts
      simp only [tokNormal]
      cases hsp : splitAtLt s with
      | mk pre ro =>
        cases ro with
        | none =>
          dsimp only
          by_cases hw : withholdTrailing pre = true
          · simp [hw, visibleChunks]
          · rw [if_neg hw, foldl_prePart]
        | some rest =>
          dsimp only
          rw [List.foldl_append, foldl_prePart, ihT, visibleChunks_append,
            List.append_assoc]
    · intro s parts
      simp only [tokTag]
      cases s with
      | nil => simp [visibleChunks]
      | cons c0 r =>
        cases r with
        | nil => simp [visibleChunks]
        | cons c r2 =>
          dsimp only
          by_cases ha : isAsciiAlpha c = true
          · rw [if_pos ha]
            cases hps : parseStartTag (c :: r2) with
            | incomplete => simp [visibleChunks]
            | startTag tag attrs selfC rest =>
              dsimp only
              by_cases hsc : selfC = true
              · rw [if_pos hsc]
                simp only [List.foldl_cons]
                by_cases hk : teIsSkipTag tag = true
                · have h1 : teStep ⟨parts, 0⟩ (.tagOpen tag attrs) = ⟨parts, 1⟩ := by
                    simp [teStep, hk]
                  have h2 : teStep ⟨parts, 1⟩ (.tagClose tag) = ⟨parts, 0⟩ := by
                    simp [teStep, hk]
                  rw [h1, h2, ihN]
                  simp [visibleChunks]
                · have h1 : teStep ⟨parts, 0⟩ (.tagOpen tag attrs) = ⟨parts, 0⟩ := by
                    simp [teStep, hk]
                  have h2 : teStep ⟨parts, 0⟩ (.tagClose tag) = ⟨parts, 0⟩ := by
                    simp [teStep, hk]
                  rw [h1, h2, ihN]
                  simp [visibleChunks]
              · rw [if_neg hsc]
                simp only [Bool.true_and]
                by_cases hcd : isCdataTag tag = true
                · rw [if_pos hcd]
                  simp only [List.foldl_cons]
                  have h1 : teStep ⟨parts, 0⟩ (.tagOpen tag attrs) = ⟨parts, 1⟩ := by
                    simp [teStep, teIsSkipTag_eq, hcd]
                  rw [h1, ihC tag rest parts (by rw [teIsSkipTag_eq]; exact hcd)]
                  simp [visibleChunks]
                · rw [if_neg hcd]
                  simp only [List.foldl_cons]
                  have h1 : teStep ⟨parts, 0⟩ (.tagOpen tag attrs) = ⟨parts, 0⟩ := by
                    simp [teStep, teIsSkipTag_eq, hcd]
                  rw [h1, ihN]
                  simp [visibleChunks]
          · rw [if_neg ha]
            by_cases hsl : c = '/'
            · rw [if_pos hsl]
              cases hpe : parseEndTag r2 with
              | incomplete => simp [visibleChunks]
              | close tag rest =>
                simp only [List.foldl_cons]
                have h1 : teStep ⟨parts, 0⟩ (.tagClose tag) = ⟨parts, 0⟩ := by
                  simp [teStep]
                rw [h1, ihN]
                simp [visibleChunks]
              | closeStop tag =>
                simp only [List.foldl_cons, List.foldl_nil]
                have h1 : teStep ⟨parts, 0⟩ (.tagClose tag) = ⟨parts, 0⟩ := by
                  simp [teStep]
                rw [h1]
                simp [visibleChunks]
              | skip rest => exact ihN rest parts
            · rw [if_neg hsl]
              by_cases hcm : startsB (str "!--") (c :: r2) = true
              · rw [if_pos hcm]
                cases hfc : findCommentClose ((c :: r2).drop 3) with
                | none => simp [visibleChunks]
                | some rest => exact ihN rest parts
              · rw [if_neg hcm]
                by_cases hq : c = '?'
                · rw [if_pos hq]
                  cases hfg : findGt r2 with
                  | none => simp [visibleChunks]
                  | some rest => exact ihN rest parts
                · rw [if_neg hq]
                  by_cases hx : c = '!'
                  · rw [if_pos hx]
                    cases hfg : findGt r2 with
                    | none => simp [visibleChunks]
                    | some rest => exact ihN rest parts
                  · rw [if_neg hx]
                    simp only [List.foldl_cons]
                    rw [teStep_chunk_zero, ihN]
                    have hcoll : collapse ['<'] = ['<'] := by decide
                    simp [visibleChunks, List.filterMap_cons, hcoll]
    · intro elem s parts helem
      simp only [tokCdata]
      cases hfc : findCdataClose elem s with
      | none => simp [visibleChunks]
      | some pr =>
        obtain ⟨pre, rest⟩ := pr
        dsimp only
        by_cases hp : pre = []
        · rw [if_pos hp]
          simp only [List.nil_append, List.foldl_cons]
          have h1 : teStep ⟨parts, 1⟩ (.tagClose elem) = ⟨parts, 0⟩ := by
            simp [teStep, helem]
          rw [h1, ihN]
          simp [visibleChunks]
        · rw [if_neg hp]
          simp only [List.cons_append, List.nil_append, List.foldl_cons]
          have h0 : teStep ⟨parts, 1⟩ (.chunk true pre) = ⟨parts, 1⟩ := by
            simp [teStep]
          have h1 : teStep ⟨parts, 1⟩ (.tagClose elem) = ⟨parts, 0⟩ := by
            simp [teStep, helem]
          rw [h0, h1, ihN]
          simp [visibleChunks]

/-- C5 (amended): `script` and `style` are raw-text elements — the parser
ends such a region at the first matching end tag without parsing tags
inside it, so skip regions never actually nest; the extractor's output is
exactly the whitespace-normalised join of the data chunks delivered
outside raw-text regions, and raw-text content never contributes. -/
theorem extract_text_visible (html : Str) :
    extract_text html = joinSpace (visibleChunks (tokenize html)) := by
  unfold extract_text tokenize
  rw [(tok_fold_parts (2 * html.length + 2)).1 html []]
  simp

/-- C5 (counterexample): with nested `<style>` blocks the claim fails:
"SECRET" sits between the inner and outer `</style>` — inside the outer
block at nesting depth 1 under the spec's reading (the spec-modelled depth
extractor `extract_text_nested` indeed excludes it) — yet the real parser
treats the first `</style>` as the end of the raw-text region, so the
extractor captures it. -/
theorem text_extractor_nested_counterexample :
    extract_text (str "<div><style>a<style>b</style>SECRET</style></div>") =
        str "SECRET" ∧
      extract_text_nested (str "<div><style>a<style>b</style>SECRET</style></div>") =
        [] := by
  refine ⟨by decide, by decide⟩

/-! ## Properties of the result-link collector -/

theorem bingCollect_length (m : Nat) :
    ∀ (links seen results : List Str), results.length < m →
      (bingCollect m links seen results).length ≤ m := by
  intro links
  induction links with
  | nil => intro seen results h; simpa [bingCollect] using Nat.le_of_lt h
  | cons l rest ih =>
    intro seen results h
    simp only [bingCollect]
    by_cases h1 : startsB (str "http") (normalize_bing_link l) = true
    · rw [if_neg (by simp [h1])]
      by_cases h2 : seen.contains (normalize_bing_link l) = true
      · rw [if_pos h2]
        exact ih seen results h
      · rw [if_neg h2]
        by_cases h3 : m ≤ (results ++ [normalize_bing_link l]).length
        · rw [if_pos h3]
          simp only [List.length_append, List.length_singleton]
          omega
        · rw [if_neg h3]
          exact ih _ _ (by omega)
    · rw [if_pos (by simp [h1])]
      exact ih seen results h

theorem bingCollect_nodup (m : Nat) :
    ∀ (links seen results : List Str), results.Nodup →
      (∀ r ∈ results, r ∈ seen) →
      (bingCollect m links seen results).Nodup := by
  intro links
  induction links with
  | nil => intro seen results h _; simpa [bingCollect] using h
  | cons l rest ih =>
    intro seen results hnd hsub
    simp only [bingCollect]
    by_cases h1 : startsB (str "http") (normalize_bing_link l) = true
    · rw [if_neg (by simp [h1])]
      by_cases h2 : seen.contains (normalize_bing_link l) = true
      · rw [if_pos h2]
        exact ih seen results hnd hsub
      · rw [if_neg h2]
        have hnseen : normalize_bing_link l ∉ seen := by simpa using h2
        have hnotin : normalize_bing_link l ∉ results := fun hmem =>
          hnseen (hsub _ hmem)
        have hnd2 : (results ++ [normalize_bing_link l]).Nodup := by
          rw [List.nodup_append]
          refine ⟨hnd, List.nodup_singleton _, fun a ha hb => hnotin ?_⟩
          simp only [List.mem_singleton] at hb
          exact hb ▸ ha
        by_cases h3 : m ≤ (results ++ [normalize_bing_link l]).length
        · rw [if_pos h3]
          exact hnd2
        · rw [if_neg h3]
          refine ih _ _ hnd2 ?_
          intro r hr
          rcases List.mem_append.mp hr with hr | hr
          · exact List.mem_cons_of_mem _ (hsub r hr)
          · simp only [List.mem_singleton] at hr
            exact hr ▸ List.mem_cons_self _ _
    · rw [if_pos (by simp [h1])]
      exact ih seen results hnd hsub

theorem bingCollect_http (m : Nat) :
    ∀ (links seen results : List Str),
      (∀ r ∈ results, startsB (str "http") r = true) →
      ∀ r ∈ bingCollect m links seen results, startsB (str "http") r = true := by
  intro links
  induction links with
  | nil => intro seen results h; simpa [bingCollect] using h
  | cons l rest ih =>
    intro seen results hall
    simp only [bingCollect]
    by_cases h1 : startsB (str "http") (normalize_bing_link l) = true
    · rw [if_neg (by simp [h1])]
      by_cases h2 : seen.contains (normalize_bing_link l) = true
      · rw [if_pos h2]
        exact ih seen results hall
      · rw [if_neg h2]
        have hall2 : ∀ r ∈ results ++ [normalize_bing_link l],
            startsB (str "http") r = true := by
          intro r hr
          rcases List.mem_append.mp hr with hr | hr
          · exact hall r hr
          · simp only [List.mem_singleton] at hr
            exact hr ▸ h1
        by_cases h3 : m ≤ (results ++ [normalize_bing_link l]).length
        · rw [if_pos h3]
          exact hall2
        · rw [if_neg h3]
          exact ih _ _ hall2
    · rw [if_pos (by simp [h1])]
      exact ih seen results hall

theorem bingCollect_sublist (m : Nat) :
    ∀ (links seen results : List Str), ∃ t,
      bingCollect m links seen results = results ++ t ∧
        t.Sublist (links.map normalize_bing_link) := by
  intro links
  induction links with
  | nil =>
    intro seen results
    exact ⟨[], by simp [bingCollect], by simp⟩
  | cons l rest ih =>
    intro seen results
    simp only [bingCollect, List.map_cons]
    by_cases h1 : startsB (str "http") (normalize_bing_link l) = true
    · rw [if_neg (by simp [h1])]
      by_cases h2 : seen.contains (normalize_bing_link l) = true
      · rw [if_pos h2]
        rcases ih seen results with ⟨t, ht, hs⟩
        exact ⟨t, ht, hs.cons _⟩
      · rw [if_neg h2]
        by_cases h3 : m ≤ (results ++ [normalize_bing_link l]).length
        · rw [if_pos h3]
          exact ⟨[normalize_bing_link l], rfl,
            List.Sublist.cons₂ _ (List.nil_sublist _)⟩
        · rw [if_neg h3]
          rcases ih (normalize_bing_link l :: seen) (results ++ [normalize_bing_link l])
            with ⟨t, ht, hs⟩
          refine ⟨normalize_bing_link l :: t, ?_, hs.cons₂ _⟩
          rw [ht, List.append_assoc]
          rfl
    · rw [if_pos (by simp [h1])]
      rcases ih seen results with ⟨t, ht, hs⟩
      exact ⟨t, ht, hs.cons _⟩

/-- C3 (amended): for every results-page HTML and every cap of at least 1,
`bing_search` returns at most `cap` links; they are pairwise distinct,
each starts with "http" (which does not make them absolute URLs), and they
form a subsequence of the normalised parser links, i.e. order of first
encounter is preserved.  (With cap 0 one link can still be returned, since
the cap is only checked after an append.) -/
theorem bing_search_amended (html : Str) (cap : Nat) (hcap : 1 ≤ cap) :
    (bing_search html cap).length ≤ cap ∧
      (bing_search html cap).Nodup ∧
      (∀ r ∈ bing_search html cap, startsB (str "http") r = true) ∧
      (bing_search html cap).Sublist
        ((bingParserLinks html).map normalize_bing_link) := by
  refine ⟨?_, ?_, ?_, ?_⟩
  · exact bingCollect_length cap _ [] [] (by simpa using hcap)
  · exact bingCollect_nodup cap _ [] [] List.nodup_nil (by simp)
  · exact bingCollect_http cap _ [] [] (by simp)
  · rcases bingCollect_sublist cap (bingParserLinks html) [] [] with ⟨t, ht, hs⟩
    unfold bing_search
    rw [ht]
    simpa using hs

/-- A results page with three qualifying result links in two containers. -/
def bingWitnessHtml : Str :=
  str "<li class=\"b_algo\"><a href=\"http://a.example/\">a</a><a href=\"http://b.example/\">b</a></li><li class=\"b_algo\"><a href=\"http://c.example/\">c</a></li>"

/-- C3 (witness): the amended theorem applied to a concrete results page
and cap 2. -/
theorem bing_search_amended_witness :
    (1 : Nat) ≤ 2 ∧
      ((bing_search bingWitnessHtml 2).length ≤ 2 ∧
        (bing_search bingWitnessHtml 2).Nodup ∧
        (∀ r ∈ bing_search bingWitnessHtml 2, startsB (str "http") r = true) ∧
        (bing_search bingWitnessHtml 2).Sublist
          ((bingParserLinks bingWitnessHtml).map normalize_bing_link)) :=
  ⟨by decide, bing_search_amended bingWitnessHtml 2 (by decide)⟩

/-- A results page whose single link `httpzrel/page` is a relative URL
that nevertheless starts with "http". -/
def bingCapHtml : Str :=
  str "<li class=\"b_algo\"><a href=\"httpzrel/page\">x</a></li>"

/-- C3 (counterexample): with the caller-supplied cap 0 the extractor
still returns one link (the cap is tested only after appending), and the
returned link `httpzrel/page` is a relative URL, not an absolute http(s)
URL — refuting both the "at most the cap" and the "never a relative URL"
parts of the claim as stated. -/
theorem bing_search_cap_zero_counterexample :
    bing_search bingCapHtml 0 = [str "httpzrel/page"] := by decide

/-! ## The pipeline can never accumulate a lead -/

theorem processLinks_leads (search : Str → Nat → Option (List Str))
    (fetch : Str → Option Str) (limit : Nat) (target : Str) :
    ∀ (links seen : List Str) (leads : List Lead) (st : LinkStep),
      processLinks search fetch limit target links seen leads = .ok st →
      (st = .done leads ∨ ∃ seen2, st = .cont seen2 leads) := by
  intro links
  induction links with
  | nil =>
    intro seen leads st h
    simp only [processLinks] at h
    injection h with h
    exact Or.inr ⟨seen, h.symm⟩
  | cons link rest ih =>
    intro seen leads st h
    simp only [processLinks, extract_linkedin] at h
    repeat' split at h
    all_goals first
      | exact ih _ _ _ h
      | (injection h with h; exact Or.inl h.symm)
      | exact Except.noConfusion h

theorem processPairs_leads (search : Str → Nat → Option (List Str))
    (fetch : Str → Option Str) (limit : Nat) :
    ∀ (pairs : List (Str × Str)) (seen : List Str) (leads ls : List Lead),
      processPairs search fetch limit pairs seen leads = .ok ls → ls = leads := by
  intro pairs
  induction pairs with
  | nil =>
    intro seen leads ls h
    simp only [processPairs] at h
    injection h with h
    exact h.symm
  | cons p rest ih =>
    intro seen leads ls h
    obtain ⟨target, seed⟩ := p
    simp only [processPairs] at h
    by_cases h1 : limit ≤ leads.length
    · rw [if_pos h1] at h
      injection h with h
      exact h.symm
    · rw [if_neg h1] at h
      cases hs : search (str "\"" ++ seed ++ str "\" \"" ++ target ++ str "\"") 10 with
      | none =>
        rw [hs] at h
        exact ih _ _ _ h
      | some results =>
        rw [hs] at h
        dsimp only at h
        cases hpl : processLinks search fetch limit target results seen leads with
        | error e =>
          rw [hpl] at h
          exact Except.noConfusion h
        | ok st =>
          rw [hpl] at h
          cases st with
          | done ls2 =>
            dsimp only at h
            rcases processLinks_leads search fetch limit target results seen leads _ hpl
              with hd | ⟨seen2, hc⟩
            · injection h with h
              injection hd with hd
              rw [← h, hd]
            · exact LinkStep.noConfusion hc
          | cont seen2 leads2 =>
            dsimp only at h
            rcases processLinks_leads search fetch limit target results seen leads _ hpl
              with hd | ⟨seen3, hc⟩
            · exact LinkStep.noConfusion hd
            · injection hc with hc1 hc2
              rw [ih _ _ _ h, hc2]

/-- C9 (code_bug): every successful run of `build_candidates` returns the
empty list — whenever a page qualifies, the call to `extract_linkedin`
raises `re.error` (its regex never compiles) before the lead is appended,
and the exception escapes `build_candidates`.  Hence the claimed
domain-uniqueness invariant is unwitnessable: no run ever returns two
candidates (nor even one). -/
theorem build_candidates_ok_empty (search : Str → Nat → Option (List Str))
    (fetch : Str → Option Str) (limit : Nat) (leads : List Lead)
    (h : build_candidates search fetch limit = .ok leads) : leads = [] :=
  processPairs_leads search fetch limit _ [] [] leads h

/-- C9 (witness): the hypothesis is satisfiable — with an always-failing
search stub the pipeline returns `.ok []`. -/
theorem build_candidates_ok_empty_witness : ([] : List Lead) = [] :=
  build_candidates_ok_empty (fun _ _ => none) (fun _ => none) 0 [] rfl

/-- C10 (code_bug): no `Lead` is ever a member of a list returned by
`build_candidates` — the code raises `re.error` out of `extract_linkedin`
before any lead can be constructed, so the claimed per-lead invariants
(role, non-empty name and location, no linkedin.com domain) hold of no
actual output. -/
theorem build_candidates_no_lead (search : Str → Nat → Option (List Str))
    (fetch : Str → Option Str) (limit : Nat) (leads : List Lead) (lead : Lead)
    (h : build_candidates search fetch limit = .ok leads) : lead ∉ leads := by
  rw [processPairs_leads search fetch limit _ [] [] leads h]
  exact List.not_mem_nil lead

/-- C10 (witness): the hypothesis is satisfiable with an always-failing
search stub. -/
theorem build_candidates_no_lead_witness :
    (Lead.mk [] [] [] [] [] [] []) ∉ ([] : List Lead) :=
  build_candidates_no_lead (fun _ _ => none) (fun _ => none) 0 []
    (Lead.mk [] [] [] [] [] [] []) rfl

/-- C2 (code_bug): with stubbed search and fetch responses yielding three
unique-domain qualifying pages and a limit of 2, `build_candidates` does
not return two candidates and stop: the first qualifying page reaches the
`extract_linkedin` call, whose regex never compiles, and the resulting
`re.error` escapes the function. -/
theorem build_candidates_crashes_on_qualifying_page :
    build_candidates stubSearch stubFetch 2 = .error .reError := rfl
